import Mathlib

/-!
Verification development for the resource/contract state engine of the
Cutthroat-Companies companion app.

The embedding is a shallow translation of the JavaScript sources:
  - `src/constants/resources.js` (resource declarations and tier derivation),
  - `src/hooks/useResources.js` (value state engine: minimum floors, cascades,
    histories, action log, undo),
  - `src/hooks/useContracts.js` (contract generation, completion and decay),
  - `src/hooks/useEconomicNoise.js` (per-resource noise adjustment).

Conventions used throughout:
  - JavaScript numbers that only ever hold integral values in the engine are
    modelled as `Int`; quantities whose fractional part matters (probabilities,
    multipliers, target values) are modelled as `ℚ` with exact arithmetic.
  - JavaScript objects used as string-keyed maps are modelled either as total
    functions `String → _` (engine state, which is initialised for every
    resource) or as association lists when presence/absence of a key matters.
  - `Math.random()` results are passed in explicitly as oracle parameters.
  - React state-updater semantics: during a single event handler every
    `setX(prev => ...)` call threads the previous state, while plain closure
    reads (`values`, and the `min` captured by `getBounds`) see the snapshot
    from before the handler ran.  The definitions reflect this by passing the
    snapshot explicitly where the source reads a closure variable.
-/

set_option maxHeartbeats 1600000
set_option maxRecDepth 2048
set_option linter.unusedTactic false

namespace Cutthroat

/-! ## Resource declarations (`src/constants/resources.js`, lines 8-48)

`label` and `icon` are presentational strings; the emoji icons of the source
are replaced by ASCII placeholders, no theorem depends on them. -/

structure RawResource where
  name : String
  label : String
  components : List String
  min : Option Int
  icon : String
deriving Repr, DecidableEq

def ironRes : RawResource :=
  { name := "iron", label := "Iron Ore", components := [], min := some 5, icon := "rock" }

def coalRes : RawResource :=
  { name := "coal", label := "Coal", min := some 10, components := [], icon := "rock" }

def oilRes : RawResource :=
  { name := "oil", label := "Crude Oil", components := [], icon := "barrel", min := some 5 }

def steelRes : RawResource :=
  { name := "steel", label := "Steel", components := ["iron", "coal"], icon := "bolt",
    min := none }

def plasticsRes : RawResource :=
  { name := "plastics", label := "Plastics", components := ["oil", "coal"], icon := "bottle",
    min := none }

def consumerGoodsRes : RawResource :=
  { name := "consumer_goods", label := "Consumer Goods", components := ["steel", "plastics"],
    icon := "phone", min := none }

/-- The fixed resource configuration `rawResources` of the app. -/
def rawResources : List RawResource :=
  [ironRes, coalRes, oilRes, steelRes, plasticsRes, consumerGoodsRes]

/-! ## Tier derivation (`src/constants/resources.js`, lines 53-76)

`computeTier` is a depth-first resolution with a memo cache (`tierCache`), an
active-resolution set (`visiting`) and two failure modes (unknown component,
circular dependency).  The JavaScript recursion has no fuel; termination there
is enforced by the `visiting` check aborting any cyclic descent, so every
descent path consists of distinct declared names and has depth at most the
number of declared resources.  The embedding makes that explicit with a fuel
argument that decreases with the depth of the descent; `initTiers` supplies
`cfg.length + 1`, which is proved sufficient below (`tier_errors_all`).
The functions are parametric in the configuration `cfg` (the source builds
`rawMap` from `rawResources`) so that cyclic configurations can be analysed.

The JavaScript cache-hit test `if (tierCache[name])` is a truthiness test; all
cached tiers are at least 1, hence truthy, so it coincides with a presence
test. -/

inductive TierError where
  | unknownResource (name : String)
  | circularDependency (name : String)
  | outOfFuel
deriving Repr, DecidableEq

/-- `rawMap[name]` lookup. -/
def findRes (cfg : List RawResource) (name : String) : Option RawResource :=
  cfg.find? (·.name = name)

/-- `tierCache[name]` lookup; the cache is an association list where assignment
prepends (lookup returns the most recent binding, matching object overwrite
semantics). -/
def lookupTier (cache : List (String × Nat)) (name : String) : Option Nat :=
  (cache.find? (·.1 = name)).map (·.2)

mutual

def computeTier (cfg : List RawResource) : Nat → List String → List (String × Nat) → String →
    Except TierError (Nat × List (String × Nat))
  | 0, _, _, _ => .error .outOfFuel
  | fuel + 1, visiting, cache, name =>
    match lookupTier cache name with
    | some t => .ok (t, cache)
    | none =>
      match findRes cfg name with
      | none => .error (.unknownResource name)
      | some res =>
        if name ∈ visiting then .error (.circularDependency name)
        else if res.components.isEmpty then .ok (1, (name, 1) :: cache)
        else
          match computeTierList cfg fuel (name :: visiting) cache res.components with
          | .error e => .error e
          | .ok (ts, cache1) =>
            .ok (ts.foldl max 0 + 1, (name, ts.foldl max 0 + 1) :: cache1)
termination_by fuel _ _ _ => (fuel, 0)

/-- `res.components.map(c => computeTier(c))`, threading the cache left to
right; a thrown error aborts the whole map. -/
def computeTierList (cfg : List RawResource) : Nat → List String → List (String × Nat) →
    List String → Except TierError (List Nat × List (String × Nat))
  | _, _, cache, [] => .ok ([], cache)
  | fuel, visiting, cache, c :: cs =>
    match computeTier cfg fuel visiting cache c with
    | .error e => .error e
    | .ok (t, cache1) =>
      match computeTierList cfg fuel visiting cache1 cs with
      | .error e => .error e
      | .ok (ts, cache2) => .ok (t :: ts, cache2)
termination_by fuel _ _ cs => (fuel, cs.length + 1)

end

/-- `rawResources.forEach(r => computeTier(r.name))`, threading the cache. -/
def initTiersFrom (cfg : List RawResource) : List RawResource → List (String × Nat) →
    Except TierError (List (String × Nat))
  | [], cache => .ok cache
  | r :: rs, cache =>
    match computeTier cfg (cfg.length + 1) [] cache r.name with
    | .error e => .error e
    | .ok (_, cache1) => initTiersFrom cfg rs cache1

/-- Tier derivation for a whole configuration: the final memo cache, or the
first error thrown. -/
def initTiers (cfg : List RawResource) : Except TierError (List (String × Nat)) :=
  initTiersFrom cfg cfg []

/-- Direct dependency: resource named `a` lists `b` among its components. -/
def DependsOn (cfg : List RawResource) (a b : String) : Prop :=
  ∃ r ∈ cfg, r.name = a ∧ b ∈ r.components

/-- The configuration contains a dependency cycle. -/
def HasCycle (cfg : List RawResource) : Prop :=
  ∃ a, Relation.TransGen (DependsOn cfg) a a

/-- Every component reference resolves to a declared resource. -/
def WellFormedCfg (cfg : List RawResource) : Prop :=
  ∀ r ∈ cfg, ∀ c ∈ r.components, ∃ q ∈ cfg, q.name = c

/-- Declared resource names are unique (the spec's data model: `name` is a
unique key). -/
def NamesNodup (cfg : List RawResource) : Prop :=
  (cfg.map (·.name)).Nodup

/-! ### Basic cache and map lemmas -/

theorem lookupTier_nil (m : String) : lookupTier [] m = none := rfl

theorem lookupTier_cons (n : String) (t : Nat) (c : List (String × Nat)) (m : String) :
    lookupTier ((n, t) :: c) m = if n = m then some t else lookupTier c m := by
  unfold lookupTier
  by_cases h : n = m
  · rw [List.find?_cons_of_pos _ (by simp [h]), if_pos h]
    rfl
  · rw [List.find?_cons_of_neg _ (by simp [h]), if_neg h]

theorem findRes_mem {cfg : List RawResource} {name : String} {r : RawResource}
    (h : findRes cfg name = some r) : r ∈ cfg ∧ r.name = name := by
  unfold findRes at h
  refine ⟨List.mem_of_find?_eq_some h, ?_⟩
  have := List.find?_some h
  simpa using this

theorem findRes_isSome_of_mem {cfg : List RawResource} {name : String}
    (h : name ∈ cfg.map (·.name)) : ∃ r, findRes cfg name = some r := by
  obtain ⟨r, hr, hname⟩ := List.mem_map.mp h
  have : (findRes cfg name).isSome := by
    unfold findRes
    rw [List.find?_isSome]
    exact ⟨r, hr, by simp [hname]⟩
  exact Option.isSome_iff_exists.mp this

theorem findRes_self {cfg : List RawResource} (hnd : NamesNodup cfg) {r : RawResource}
    (hr : r ∈ cfg) : findRes cfg r.name = some r := by
  induction cfg with
  | nil => cases hr
  | cons q cfg ih =>
      unfold NamesNodup at hnd
      rw [List.map_cons, List.nodup_cons] at hnd
      rcases List.mem_cons.mp hr with rfl | hr'
      · unfold findRes
        rw [List.find?_cons_of_pos _ (by simp)]
      · by_cases hq : q.name = r.name
        · exact absurd (hq ▸ List.mem_map.mpr ⟨r, hr', rfl⟩) hnd.1
        · unfold findRes
          rw [List.find?_cons_of_neg _ (by simp [hq])]
          exact ih hnd.2 hr'

theorem computeTier_zero (cfg : List RawResource) (vis : List String)
    (cache : List (String × Nat)) (name : String) :
    computeTier cfg 0 vis cache name = .error .outOfFuel := by
  simp [computeTier]

theorem le_foldl_max_init (l : List Nat) (a : Nat) : a ≤ l.foldl max a := by
  induction l generalizing a with
  | nil => exact le_refl a
  | cons x l ih => exact le_trans (le_max_left a x) (ih (max a x))

theorem le_foldl_max_of_mem {x : Nat} {l : List Nat} (h : x ∈ l) (a : Nat) :
    x ≤ l.foldl max a := by
  induction l generalizing a with
  | nil => cases h
  | cons y l ih =>
      rcases List.mem_cons.mp h with rfl | h'
      · exact le_trans (le_max_right a x) (le_foldl_max_init l (max a x))
      · exact ih h' (max a y)

theorem forall2_exists_mem {α β : Type} {R : α → β → Prop} {cs : List α} {ts : List β}
    (h : List.Forall₂ R cs ts) {c : α} (hc : c ∈ cs) : ∃ t, t ∈ ts ∧ R c t := by
  induction h with
  | nil => cases hc
  | cons hR _ ih =>
      rcases List.mem_cons.mp hc with rfl | hc'
      · exact ⟨_, List.mem_cons_self _ _, hR⟩
      · obtain ⟨t, ht, hRt⟩ := ih hc'
        exact ⟨t, List.mem_cons_of_mem _ ht, hRt⟩

theorem forall2_lookup_map {L : String → Option Nat} {cs : List String} {ts : List Nat}
    (h : List.Forall₂ (fun c t => L c = some t) cs ts) :
    cs.map (fun c => (L c).getD 0) = ts := by
  induction h with
  | nil => rfl
  | cons hR _ ih => simp [hR, ih]

/-! ### Cache monotonicity and visiting-set stability -/

theorem tier_mono_all (cfg : List RawResource) : ∀ fuel : Nat,
    (∀ vis cache name t cache', computeTier cfg fuel vis cache name = .ok (t, cache') →
      (∀ k v, lookupTier cache k = some v → lookupTier cache' k = some v) ∧
      (∀ k, k ∈ vis → lookupTier cache' k = lookupTier cache k)) ∧
    (∀ cs vis cache ts cache', computeTierList cfg fuel vis cache cs = .ok (ts, cache') →
      (∀ k v, lookupTier cache k = some v → lookupTier cache' k = some v) ∧
      (∀ k, k ∈ vis → lookupTier cache' k = lookupTier cache k)) := by
  intro fuel
  induction fuel with
  | zero =>
      constructor
      · intro vis cache name t cache' h
        rw [computeTier_zero] at h
        exact absurd h (by simp)
      · intro cs vis cache ts cache' h
        cases cs with
        | nil =>
            simp only [computeTierList, Except.ok.injEq, Prod.mk.injEq] at h
            obtain ⟨-, rfl⟩ := h
            exact ⟨fun k v hv => hv, fun k _ => rfl⟩
        | cons c cs =>
            simp only [computeTierList, computeTier_zero] at h
            exact Except.noConfusion h
  | succ fuel ih =>
      have hP : ∀ vis cache name t cache', computeTier cfg (fuel + 1) vis cache name =
          .ok (t, cache') →
          (∀ k v, lookupTier cache k = some v → lookupTier cache' k = some v) ∧
          (∀ k, k ∈ vis → lookupTier cache' k = lookupTier cache k) := by
        intro vis cache name t cache' h
        rw [computeTier] at h
        cases hl : lookupTier cache name with
        | some t0 =>
            simp only [hl, Except.ok.injEq, Prod.mk.injEq] at h
            obtain ⟨-, rfl⟩ := h
            exact ⟨fun k v hv => hv, fun k _ => rfl⟩
        | none =>
            simp only [hl] at h
            cases hf : findRes cfg name with
            | none => simp only [hf] at h; exact Except.noConfusion h
            | some res =>
                simp only [hf] at h
                by_cases hv : name ∈ vis
                · rw [if_pos hv] at h
                  exact absurd h (by simp)
                · rw [if_neg hv] at h
                  by_cases hc : res.components.isEmpty
                  · rw [if_pos hc] at h
                    simp only [Except.ok.injEq, Prod.mk.injEq] at h
                    obtain ⟨-, rfl⟩ := h
                    constructor
                    · intro k v hkv
                      rw [lookupTier_cons]
                      rw [if_neg (show ¬ name = k from fun hnk => by rw [hnk] at hl; rw [hl] at hkv; exact Option.noConfusion hkv)]
                      exact hkv
                    · intro k hk
                      rw [lookupTier_cons, if_neg (show ¬ name = k from fun hnk => hv (by rw [hnk]; exact hk))]
                  · rw [if_neg hc] at h
                    cases hrec : computeTierList cfg fuel (name :: vis) cache
                        res.components with
                    | error e => simp only [hrec] at h; exact Except.noConfusion h
                    | ok p =>
                        obtain ⟨ts, cache1⟩ := p
                        simp only [hrec, Except.ok.injEq, Prod.mk.injEq] at h
                        obtain ⟨-, rfl⟩ := h
                        obtain ⟨hmono, hstab⟩ := ih.2 res.components (name :: vis) cache
                          ts cache1 hrec
                        constructor
                        · intro k v hkv
                          rw [lookupTier_cons]
                          rw [if_neg (show ¬ name = k from fun hnk => by rw [hnk] at hl; rw [hl] at hkv; exact Option.noConfusion hkv)]
                          exact hmono k v hkv
                        · intro k hk
                          rw [lookupTier_cons, if_neg (show ¬ name = k from fun hnk => hv (by rw [hnk]; exact hk))]
                          exact hstab k (List.mem_cons_of_mem _ hk)
      refine ⟨hP, ?_⟩
      intro cs
      induction cs with
      | nil =>
          intro vis cache ts cache' h
          simp only [computeTierList, Except.ok.injEq, Prod.mk.injEq] at h
          obtain ⟨-, rfl⟩ := h
          exact ⟨fun k v hv => hv, fun k _ => rfl⟩
      | cons c cs ihl =>
          intro vis cache ts cache' h
          rw [computeTierList] at h
          cases h1 : computeTier cfg (fuel + 1) vis cache c with
          | error e => simp only [h1] at h; exact Except.noConfusion h
          | ok p =>
              obtain ⟨t1, cache1⟩ := p
              simp only [h1] at h
              cases h2 : computeTierList cfg (fuel + 1) vis cache1 cs with
              | error e => simp only [h2] at h; exact Except.noConfusion h
              | ok q =>
                  obtain ⟨ts2, cache2⟩ := q
                  simp only [h2, Except.ok.injEq, Prod.mk.injEq] at h
                  obtain ⟨-, rfl⟩ := h
                  obtain ⟨hm1, hs1⟩ := hP vis cache c t1 cache1 h1
                  obtain ⟨hm2, hs2⟩ := ihl vis cache1 ts2 _ h2
                  exact ⟨fun k v hv => hm2 k v (hm1 k v hv),
                    fun k hk => (hs2 k hk).trans (hs1 k hk)⟩

theorem computeTier_mono {cfg : List RawResource} {fuel : Nat} {vis : List String}
    {cache : List (String × Nat)} {name : String} {t : Nat} {cache' : List (String × Nat)}
    (h : computeTier cfg fuel vis cache name = .ok (t, cache')) :
    ∀ k v, lookupTier cache k = some v → lookupTier cache' k = some v :=
  ((tier_mono_all cfg fuel).1 vis cache name t cache' h).1

theorem computeTier_stable {cfg : List RawResource} {fuel : Nat} {vis : List String}
    {cache : List (String × Nat)} {name : String} {t : Nat} {cache' : List (String × Nat)}
    (h : computeTier cfg fuel vis cache name = .ok (t, cache')) :
    ∀ k, k ∈ vis → lookupTier cache' k = lookupTier cache k :=
  ((tier_mono_all cfg fuel).1 vis cache name t cache' h).2

theorem computeTierList_mono {cfg : List RawResource} {fuel : Nat} {vis cs : List String}
    {cache : List (String × Nat)} {ts : List Nat} {cache' : List (String × Nat)}
    (h : computeTierList cfg fuel vis cache cs = .ok (ts, cache')) :
    ∀ k v, lookupTier cache k = some v → lookupTier cache' k = some v :=
  ((tier_mono_all cfg fuel).2 cs vis cache ts cache' h).1

theorem computeTierList_stable {cfg : List RawResource} {fuel : Nat} {vis cs : List String}
    {cache : List (String × Nat)} {ts : List Nat} {cache' : List (String × Nat)}
    (h : computeTierList cfg fuel vis cache cs = .ok (ts, cache')) :
    ∀ k, k ∈ vis → lookupTier cache' k = lookupTier cache k :=
  ((tier_mono_all cfg fuel).2 cs vis cache ts cache' h).2

/-! ### A successful call caches its own tier; list calls cache all of them -/

theorem computeTier_self {cfg : List RawResource} {fuel : Nat} {vis : List String}
    {cache : List (String × Nat)} {name : String} {t : Nat} {cache' : List (String × Nat)}
    (h : computeTier cfg fuel vis cache name = .ok (t, cache')) :
    lookupTier cache' name = some t := by
  cases fuel with
  | zero => rw [computeTier_zero] at h; exact absurd h (by simp)
  | succ fuel =>
      rw [computeTier] at h
      cases hl : lookupTier cache name with
      | some t0 =>
          simp only [hl, Except.ok.injEq, Prod.mk.injEq] at h
          obtain ⟨rfl, rfl⟩ := h
          exact hl
      | none =>
          simp only [hl] at h
          cases hf : findRes cfg name with
          | none => simp only [hf] at h; exact Except.noConfusion h
          | some res =>
              simp only [hf] at h
              by_cases hv : name ∈ vis
              · rw [if_pos hv] at h; exact absurd h (by simp)
              · rw [if_neg hv] at h
                by_cases hc : res.components.isEmpty
                · rw [if_pos hc] at h
                  simp only [Except.ok.injEq, Prod.mk.injEq] at h
                  obtain ⟨rfl, rfl⟩ := h
                  rw [lookupTier_cons, if_pos rfl]
                · rw [if_neg hc] at h
                  cases hrec : computeTierList cfg fuel (name :: vis) cache
                      res.components with
                  | error e => simp only [hrec] at h; exact Except.noConfusion h
                  | ok p =>
                      obtain ⟨ts, cache1⟩ := p
                      simp only [hrec, Except.ok.injEq, Prod.mk.injEq] at h
                      obtain ⟨rfl, rfl⟩ := h
                      rw [lookupTier_cons, if_pos rfl]

theorem computeTierList_forall2 {cfg : List RawResource} {fuel : Nat} {vis : List String} :
    ∀ {cs : List String} {cache : List (String × Nat)} {ts : List Nat}
      {cache' : List (String × Nat)},
      computeTierList cfg fuel vis cache cs = .ok (ts, cache') →
      List.Forall₂ (fun c t => lookupTier cache' c = some t) cs ts := by
  intro cs
  induction cs with
  | nil =>
      intro cache ts cache' h
      simp only [computeTierList, Except.ok.injEq, Prod.mk.injEq] at h
      obtain ⟨rfl, -⟩ := h
      exact List.Forall₂.nil
  | cons c cs ih =>
      intro cache ts cache' h
      rw [computeTierList] at h
      cases h1 : computeTier cfg fuel vis cache c with
      | error e => simp only [h1] at h; exact Except.noConfusion h
      | ok p =>
          obtain ⟨t1, cache1⟩ := p
          simp only [h1] at h
          cases h2 : computeTierList cfg fuel vis cache1 cs with
          | error e => simp only [h2] at h; exact Except.noConfusion h
          | ok q =>
              obtain ⟨ts2, cache2⟩ := q
              simp only [h2, Except.ok.injEq, Prod.mk.injEq] at h
              obtain ⟨rfl, rfl⟩ := h
              exact List.Forall₂.cons
                (computeTierList_mono h2 c t1 (computeTier_self h1)) (ih h2)

/-! ### The cache invariant: every cached entry satisfies the tier recurrence -/

/-- Every name cached so far resolves in the configuration, and its cached tier
is exactly the one the recurrence prescribes, reading component tiers from the
same cache. -/
def Conforms (cfg : List RawResource) (cache : List (String × Nat)) : Prop :=
  ∀ name t, lookupTier cache name = some t →
    ∃ res, findRes cfg name = some res ∧
      (res.components.isEmpty = true → t = 1) ∧
      (res.components.isEmpty = false →
        (∀ c ∈ res.components, (lookupTier cache c).isSome = true) ∧
        t = (res.components.map (fun c => (lookupTier cache c).getD 0)).foldl max 0 + 1)

theorem conforms_nil (cfg : List RawResource) : Conforms cfg [] := by
  intro name t h
  rw [lookupTier_nil] at h
  cases h

theorem conforms_tier_pos {cfg : List RawResource} {cache : List (String × Nat)}
    (hcf : Conforms cfg cache) {name : String} {t : Nat}
    (h : lookupTier cache name = some t) : 1 ≤ t := by
  obtain ⟨res, -, h1, h2⟩ := hcf name t h
  cases hce : res.components.isEmpty with
  | true => rw [h1 hce]
  | false =>
      obtain ⟨-, ht⟩ := h2 hce
      omega

theorem tier_conforms_all (cfg : List RawResource) : ∀ fuel : Nat,
    (∀ vis cache name t cache', Conforms cfg cache →
      computeTier cfg fuel vis cache name = .ok (t, cache') → Conforms cfg cache') ∧
    (∀ cs vis cache ts cache', Conforms cfg cache →
      computeTierList cfg fuel vis cache cs = .ok (ts, cache') → Conforms cfg cache') := by
  intro fuel
  induction fuel with
  | zero =>
      constructor
      · intro vis cache name t cache' _ h
        rw [computeTier_zero] at h
        exact absurd h (by simp)
      · intro cs vis cache ts cache' hcf h
        cases cs with
        | nil =>
            simp only [computeTierList, Except.ok.injEq, Prod.mk.injEq] at h
            obtain ⟨-, rfl⟩ := h
            exact hcf
        | cons c cs => simp only [computeTierList, computeTier_zero] at h; exact Except.noConfusion h
  | succ fuel ih =>
      have hP : ∀ vis cache name t cache', Conforms cfg cache →
          computeTier cfg (fuel + 1) vis cache name = .ok (t, cache') →
          Conforms cfg cache' := by
        intro vis cache name t cache' hcf h
        rw [computeTier] at h
        cases hl : lookupTier cache name with
        | some t0 =>
            simp only [hl, Except.ok.injEq, Prod.mk.injEq] at h
            obtain ⟨-, rfl⟩ := h
            exact hcf
        | none =>
            simp only [hl] at h
            cases hf : findRes cfg name with
            | none => simp only [hf] at h; exact Except.noConfusion h
            | some res =>
                simp only [hf] at h
                by_cases hv : name ∈ vis
                · rw [if_pos hv] at h
                  exact absurd h (by simp)
                · rw [if_neg hv] at h
                  by_cases hc : res.components.isEmpty
                  · rw [if_pos hc] at h
                    simp only [Except.ok.injEq, Prod.mk.injEq] at h
                    obtain ⟨-, rfl⟩ := h
                    intro k u hk
                    rw [lookupTier_cons] at hk
                    by_cases hnk : name = k
                    · rw [if_pos hnk] at hk
                      obtain rfl := Option.some.inj hk
                      subst hnk
                      refine ⟨res, hf, fun _ => rfl, fun hce => absurd hc (by simp [hce])⟩
                    · rw [if_neg hnk] at hk
                      obtain ⟨res', hf', h1', h2'⟩ := hcf k u hk
                      refine ⟨res', hf', h1', fun hce => ?_⟩
                      obtain ⟨hall, ht⟩ := h2' hce
                      have hmve : ∀ c ∈ res'.components,
                          lookupTier ((name, 1) :: cache) c = lookupTier cache c := by
                        intro c hcmem
                        rw [lookupTier_cons, if_neg ?_]
                        intro hnc
                        have := hall c hcmem
                        rw [← hnc, hl] at this
                        simp at this
                      refine ⟨fun c hcmem => by rw [hmve c hcmem]; exact hall c hcmem, ?_⟩
                      rw [List.map_congr_left (fun c hcmem => by rw [hmve c hcmem])]
                      exact ht
                  · rw [if_neg hc] at h
                    cases hrec : computeTierList cfg fuel (name :: vis) cache
                        res.components with
                    | error e => simp only [hrec] at h; exact Except.noConfusion h
                    | ok p =>
                        obtain ⟨ts, cache1⟩ := p
                        simp only [hrec, Except.ok.injEq, Prod.mk.injEq] at h
                        obtain ⟨-, rfl⟩ := h
                        have hcf1 : Conforms cfg cache1 :=
                          ih.2 res.components (name :: vis) cache ts cache1 hcf hrec
                        have hn1 : lookupTier cache1 name = none := by
                          rw [computeTierList_stable hrec name (List.mem_cons_self _ _), hl]
                        have hall2 := computeTierList_forall2 hrec
                        have hmve : ∀ c, (lookupTier cache1 c).isSome = true →
                            lookupTier ((name, ts.foldl max 0 + 1) :: cache1) c =
                              lookupTier cache1 c := by
                          intro c hsome
                          rw [lookupTier_cons, if_neg ?_]
                          intro hnc
                          rw [← hnc, hn1] at hsome
                          simp at hsome
                        intro k u hk
                        rw [lookupTier_cons] at hk
                        by_cases hnk : name = k
                        · rw [if_pos hnk] at hk
                          obtain rfl := Option.some.inj hk
                          subst hnk
                          refine ⟨res, hf, fun hce => absurd hce (by simp [hc]), fun _ => ?_⟩
                          have hall2' : List.Forall₂
                              (fun c t => lookupTier ((name, ts.foldl max 0 + 1) :: cache1)
                                c = some t) res.components ts := by
                            refine hall2.imp ?_
                            intro c t hct
                            rw [hmve c (by rw [hct]; rfl)]
                            exact hct
                          refine ⟨?_, ?_⟩
                          · intro c hcmem
                            obtain ⟨tc, -, htc⟩ := forall2_exists_mem hall2' hcmem
                            rw [htc]; rfl
                          · rw [forall2_lookup_map hall2']
                        · rw [if_neg hnk] at hk
                          obtain ⟨res', hf', h1', h2'⟩ := hcf1 k u hk
                          refine ⟨res', hf', h1', fun hce => ?_⟩
                          obtain ⟨hall, ht⟩ := h2' hce
                          refine ⟨fun c hcmem => by
                              rw [hmve c (hall c hcmem)]; exact hall c hcmem, ?_⟩
                          rw [List.map_congr_left
                            (fun c hcmem => by rw [hmve c (hall c hcmem)])]
                          exact ht
      refine ⟨hP, ?_⟩
      intro cs
      induction cs with
      | nil =>
          intro vis cache ts cache' hcf h
          simp only [computeTierList, Except.ok.injEq, Prod.mk.injEq] at h
          obtain ⟨-, rfl⟩ := h
          exact hcf
      | cons c cs ihl =>
          intro vis cache ts cache' hcf h
          rw [computeTierList] at h
          cases h1 : computeTier cfg (fuel + 1) vis cache c with
          | error e => simp only [h1] at h; exact Except.noConfusion h
          | ok p =>
              obtain ⟨t1, cache1⟩ := p
              simp only [h1] at h
              cases h2 : computeTierList cfg (fuel + 1) vis cache1 cs with
              | error e => simp only [h2] at h; exact Except.noConfusion h
              | ok q =>
                  obtain ⟨ts2, cache2⟩ := q
                  simp only [h2, Except.ok.injEq, Prod.mk.injEq] at h
                  obtain ⟨-, rfl⟩ := h
                  exact ihl vis cache1 ts2 _ (hP vis cache c t1 cache1 hcf h1) h2

/-! ### Error classification: with enough fuel, the only error in a well-formed
configuration is a circular dependency on a declared name -/

theorem tier_errors_all (cfg : List RawResource) (hwf : WellFormedCfg cfg)
    (hnd : NamesNodup cfg) : ∀ fuel : Nat,
    (∀ vis cache name e, name ∈ cfg.map (·.name) → vis.Nodup →
      (∀ v ∈ vis, v ∈ cfg.map (·.name)) → cfg.length + 1 ≤ fuel + vis.length →
      computeTier cfg fuel vis cache name = .error e →
      ∃ x, e = .circularDependency x ∧ x ∈ cfg.map (·.name)) ∧
    (∀ cs vis cache e, (∀ c ∈ cs, c ∈ cfg.map (·.name)) → vis.Nodup →
      (∀ v ∈ vis, v ∈ cfg.map (·.name)) → cfg.length + 1 ≤ fuel + vis.length →
      computeTierList cfg fuel vis cache cs = .error e →
      ∃ x, e = .circularDependency x ∧ x ∈ cfg.map (·.name)) := by
  have hcard : ∀ vis : List String, vis.Nodup → (∀ v ∈ vis, v ∈ cfg.map (·.name)) →
      vis.length ≤ cfg.length := by
    intro vis hnodup hsub
    have := (hnodup.subperm (fun {v} hv => hsub v hv)).length_le
    simpa using this
  intro fuel
  induction fuel with
  | zero =>
      constructor
      · intro vis cache name e _ hnodup hsub hlen _
        exact absurd hlen (by have := hcard vis hnodup hsub; omega)
      · intro cs vis cache e _ hnodup hsub hlen h
        cases cs with
        | nil => simp only [computeTierList] at h; exact Except.noConfusion h
        | cons c cs =>
            exact absurd hlen (by have := hcard vis hnodup hsub; omega)
  | succ fuel ih =>
      have hP : ∀ vis cache name e, name ∈ cfg.map (·.name) → vis.Nodup →
          (∀ v ∈ vis, v ∈ cfg.map (·.name)) → cfg.length + 1 ≤ (fuel + 1) + vis.length →
          computeTier cfg (fuel + 1) vis cache name = .error e →
          ∃ x, e = .circularDependency x ∧ x ∈ cfg.map (·.name) := by
        intro vis cache name e hname hnodup hsub hlen h
        rw [computeTier] at h
        cases hl : lookupTier cache name with
        | some t0 => simp only [hl] at h; exact Except.noConfusion h
        | none =>
            simp only [hl] at h
            cases hf : findRes cfg name with
            | none =>
                obtain ⟨r, hr⟩ := findRes_isSome_of_mem hname
                rw [hr] at hf
                cases hf
            | some res =>
                simp only [hf] at h
                by_cases hv : name ∈ vis
                · rw [if_pos hv] at h
                  simp only [Except.error.injEq] at h
                  exact ⟨name, h.symm, hname⟩
                · rw [if_neg hv] at h
                  by_cases hc : res.components.isEmpty
                  · rw [if_pos hc] at h
                    exact Except.noConfusion h
                  · rw [if_neg hc] at h
                    cases hrec : computeTierList cfg fuel (name :: vis) cache
                        res.components with
                    | error e' =>
                        simp only [hrec, Except.error.injEq] at h
                        subst h
                        obtain ⟨hres, -⟩ := findRes_mem hf
                        refine ih.2 res.components (name :: vis) cache e' ?_ ?_ ?_ ?_ hrec
                        · intro c hcmem
                          obtain ⟨q, hq, hqname⟩ := hwf res hres c hcmem
                          exact List.mem_map.mpr ⟨q, hq, hqname⟩
                        · exact List.nodup_cons.mpr ⟨hv, hnodup⟩
                        · intro v hvmem
                          rcases List.mem_cons.mp hvmem with rfl | hv'
                          · exact hname
                          · exact hsub v hv'
                        · simp only [List.length_cons]
                          omega
                    | ok p => simp only [hrec] at h; exact Except.noConfusion h
      refine ⟨hP, ?_⟩
      intro cs
      induction cs with
      | nil =>
          intro vis cache e _ _ _ _ h
          simp only [computeTierList] at h
          exact Except.noConfusion h
      | cons c cs ihl =>
          intro vis cache e hcs hnodup hsub hlen h
          rw [computeTierList] at h
          cases h1 : computeTier cfg (fuel + 1) vis cache c with
          | error e1 =>
              simp only [h1, Except.error.injEq] at h
              subst h
              exact hP vis cache c e1 (hcs c (List.mem_cons_self _ _)) hnodup hsub hlen h1
          | ok p =>
              obtain ⟨t1, cache1⟩ := p
              simp only [h1] at h
              cases h2 : computeTierList cfg (fuel + 1) vis cache1 cs with
              | error e2 =>
                  simp only [h2, Except.error.injEq] at h
                  subst h
                  exact ihl vis cache1 e2
                    (fun x hx => hcs x (List.mem_cons_of_mem _ hx)) hnodup hsub hlen h2
              | ok q => simp only [h2] at h; exact Except.noConfusion h

/-! ### Under acyclicity the circular-dependency error never fires -/

theorem tier_no_cycle_all (cfg : List RawResource)
    (hacyc : ∀ x, ¬ Relation.TransGen (DependsOn cfg) x x) : ∀ fuel : Nat,
    (∀ vis cache name x, (∀ v ∈ vis, Relation.TransGen (DependsOn cfg) v name) →
      computeTier cfg fuel vis cache name ≠ .error (.circularDependency x)) ∧
    (∀ cs vis cache x, (∀ v ∈ vis, ∀ c ∈ cs, Relation.TransGen (DependsOn cfg) v c) →
      computeTierList cfg fuel vis cache cs ≠ .error (.circularDependency x)) := by
  intro fuel
  induction fuel with
  | zero =>
      constructor
      · intro vis cache name x _ h
        rw [computeTier_zero] at h
        exact TierError.noConfusion (Except.error.inj h)
      · intro cs vis cache x _ h
        cases cs with
        | nil => simp only [computeTierList] at h; exact Except.noConfusion h
        | cons c cs =>
            simp only [computeTierList, computeTier_zero] at h
            exact TierError.noConfusion (Except.error.inj h)
  | succ fuel ih =>
      have hP : ∀ vis cache name x,
          (∀ v ∈ vis, Relation.TransGen (DependsOn cfg) v name) →
          computeTier cfg (fuel + 1) vis cache name ≠ .error (.circularDependency x) := by
        intro vis cache name x hinv h
        rw [computeTier] at h
        cases hl : lookupTier cache name with
        | some t0 => simp only [hl] at h; exact Except.noConfusion h
        | none =>
            simp only [hl] at h
            cases hf : findRes cfg name with
            | none =>
                simp only [hf, Except.error.injEq] at h
                exact TierError.noConfusion h
            | some res =>
                simp only [hf] at h
                by_cases hv : name ∈ vis
                · exact hacyc name (hinv name hv)
                · rw [if_neg hv] at h
                  by_cases hc : res.components.isEmpty
                  · rw [if_pos hc] at h
                    exact Except.noConfusion h
                  · rw [if_neg hc] at h
                    cases hrec : computeTierList cfg fuel (name :: vis) cache
                        res.components with
                    | error e' =>
                        simp only [hrec, Except.error.injEq] at h
                        subst h
                        obtain ⟨hres, hresname⟩ := findRes_mem hf
                        refine ih.2 res.components (name :: vis) cache x ?_ hrec
                        intro v hvmem c hcmem
                        have hedge : DependsOn cfg name c := ⟨res, hres, hresname, hcmem⟩
                        rcases List.mem_cons.mp hvmem with rfl | hv'
                        · exact Relation.TransGen.single hedge
                        · exact Relation.TransGen.tail (hinv v hv') hedge
                    | ok p => simp only [hrec] at h; exact Except.noConfusion h
      refine ⟨hP, ?_⟩
      intro cs
      induction cs with
      | nil =>
          intro vis cache x _ h
          simp only [computeTierList] at h
          exact Except.noConfusion h
      | cons c cs ihl =>
          intro vis cache x hinv h
          rw [computeTierList] at h
          cases h1 : computeTier cfg (fuel + 1) vis cache c with
          | error e1 =>
              simp only [h1, Except.error.injEq] at h
              subst h
              exact hP vis cache c x
                (fun v hv => hinv v hv c (List.mem_cons_self _ _)) h1
          | ok p =>
              obtain ⟨t1, cache1⟩ := p
              simp only [h1] at h
              cases h2 : computeTierList cfg (fuel + 1) vis cache1 cs with
              | error e2 =>
                  simp only [h2, Except.error.injEq] at h
                  subst h
                  exact ihl vis cache1 x
                    (fun v hv c' hc' => hinv v hv c' (List.mem_cons_of_mem _ hc')) h2
              | ok q => simp only [h2] at h; exact Except.noConfusion h

/-! ### Threading the three invariants through `initTiersFrom` -/

theorem initTiersFrom_spec (cfg : List RawResource) :
    ∀ (rs : List RawResource) (cache cache₂ : List (String × Nat)),
      Conforms cfg cache → initTiersFrom cfg rs cache = .ok cache₂ →
      Conforms cfg cache₂ ∧
      (∀ k v, lookupTier cache k = some v → lookupTier cache₂ k = some v) ∧
      (∀ r ∈ rs, ∃ t, lookupTier cache₂ r.name = some t) := by
  intro rs
  induction rs with
  | nil =>
      intro cache cache₂ hcf h
      simp only [initTiersFrom, Except.ok.injEq] at h
      subst h
      exact ⟨hcf, fun k v hv => hv, fun r hr => absurd hr (List.not_mem_nil r)⟩
  | cons r rs ih =>
      intro cache cache₂ hcf h
      rw [initTiersFrom] at h
      cases h1 : computeTier cfg (cfg.length + 1) [] cache r.name with
      | error e => simp only [h1] at h; exact Except.noConfusion h
      | ok p =>
          obtain ⟨t1, cache1⟩ := p
          simp only [h1] at h
          have hcf1 : Conforms cfg cache1 :=
            (tier_conforms_all cfg (cfg.length + 1)).1 [] cache r.name t1 cache1 hcf h1
          obtain ⟨hcf2, hmono2, hall2⟩ := ih cache1 cache₂ hcf1 h
          refine ⟨hcf2, fun k v hv => hmono2 k v (computeTier_mono h1 k v hv), ?_⟩
          intro q hq
          rcases List.mem_cons.mp hq with rfl | hq'
          · exact ⟨t1, hmono2 q.name t1 (computeTier_self h1)⟩
          · exact hall2 q hq'

theorem initTiersFrom_classify (cfg : List RawResource) (hwf : WellFormedCfg cfg)
    (hnd : NamesNodup cfg) :
    ∀ (rs : List RawResource) (cache : List (String × Nat)) (e : TierError),
      (∀ r ∈ rs, r ∈ cfg) → initTiersFrom cfg rs cache = .error e →
      ∃ x, e = .circularDependency x ∧ x ∈ cfg.map (·.name) := by
  intro rs
  induction rs with
  | nil =>
      intro cache e _ h
      simp only [initTiersFrom] at h; exact Except.noConfusion h
  | cons r rs ih =>
      intro cache e hrs h
      rw [initTiersFrom] at h
      cases h1 : computeTier cfg (cfg.length + 1) [] cache r.name with
      | error e1 =>
          simp only [h1, Except.error.injEq] at h
          subst h
          refine (tier_errors_all cfg hwf hnd (cfg.length + 1)).1 [] cache r.name e1 ?_
            List.nodup_nil (by simp) (by simp) h1
          exact List.mem_map.mpr ⟨r, hrs r (List.mem_cons_self _ _), rfl⟩
      | ok p =>
          obtain ⟨t1, cache1⟩ := p
          simp only [h1] at h
          exact ih cache1 e (fun q hq => hrs q (List.mem_cons_of_mem _ hq)) h

theorem initTiersFrom_acyc_ok (cfg : List RawResource) (hwf : WellFormedCfg cfg)
    (hnd : NamesNodup cfg) (hacyc : ∀ x, ¬ Relation.TransGen (DependsOn cfg) x x) :
    ∀ (rs : List RawResource) (cache : List (String × Nat)), (∀ r ∈ rs, r ∈ cfg) →
      ∃ cache₂, initTiersFrom cfg rs cache = .ok cache₂ := by
  intro rs
  induction rs with
  | nil => exact fun cache _ => ⟨cache, rfl⟩
  | cons r rs ih =>
      intro cache hrs
      cases h1 : computeTier cfg (cfg.length + 1) [] cache r.name with
      | error e1 =>
          exfalso
          obtain ⟨x, rfl, -⟩ :=
            (tier_errors_all cfg hwf hnd (cfg.length + 1)).1 [] cache r.name e1
              (List.mem_map.mpr ⟨r, hrs r (List.mem_cons_self _ _), rfl⟩)
              List.nodup_nil (by simp) (by simp) h1
          exact (tier_no_cycle_all cfg hacyc (cfg.length + 1)).1 [] cache r.name x
            (by simp) h1
      | ok p =>
          obtain ⟨t1, cache1⟩ := p
          obtain ⟨cache₂, h₂⟩ := ih cache1 (fun q hq => hrs q (List.mem_cons_of_mem _ hq))
          refine ⟨cache₂, ?_⟩
          rw [initTiersFrom, h1]
          exact h₂

/-! ### A conforming, fully-populated cache certifies acyclicity -/

theorem rank_no_cycle (cfg : List RawResource) (f : String → Nat)
    (hf : ∀ a b, DependsOn cfg a b → f b < f a) : ¬ HasCycle cfg := by
  have hlt : ∀ a b, Relation.TransGen (DependsOn cfg) a b → f b < f a := by
    intro a b htg
    induction htg with
    | single h => exact hf _ _ h
    | tail _ h2 ih => exact lt_trans (hf _ _ h2) ih
  rintro ⟨a, ha⟩
  exact lt_irrefl (f a) (hlt a a ha)

theorem conforms_edge_lt (cfg : List RawResource) (hnd : NamesNodup cfg)
    {cache : List (String × Nat)} (hcf : Conforms cfg cache)
    (hpres : ∀ r ∈ cfg, (lookupTier cache r.name).isSome = true)
    {a b : String} (hab : DependsOn cfg a b) :
    (lookupTier cache b).getD 0 < (lookupTier cache a).getD 0 := by
  obtain ⟨r, hr, rfl, hbcomp⟩ := hab
  obtain ⟨ta, hta⟩ := Option.isSome_iff_exists.mp (hpres r hr)
  obtain ⟨res, hfind, -, h2⟩ := hcf r.name ta hta
  obtain rfl := Option.some.inj ((findRes_self hnd hr).symm.trans hfind)
  have hce : r.components.isEmpty = false := by
    cases hc : r.components with
    | nil => rw [hc] at hbcomp; cases hbcomp
    | cons x xs => rfl
  obtain ⟨hall, hta'⟩ := h2 hce
  have hmem : (lookupTier cache b).getD 0 ∈
      r.components.map (fun c => (lookupTier cache c).getD 0) :=
    List.mem_map.mpr ⟨b, hbcomp, rfl⟩
  rw [hta, Option.getD_some, hta']
  have := le_foldl_max_of_mem hmem 0
  omega

/-! ### C7 and C8 -/

/-- C7: for every resource `r` of an acyclic well-formed configuration with
unique names, tier derivation succeeds and the cached tiers satisfy the
recurrence: `tier(r) = 1` iff `r` has no components, and otherwise
`tier(r) = 1 + max` over the (cached) tiers of `r`'s direct components. -/
theorem tier_recurrence (cfg : List RawResource) (hwf : WellFormedCfg cfg)
    (hnd : NamesNodup cfg) (hacyc : ¬ HasCycle cfg) :
    ∃ cache, initTiers cfg = .ok cache ∧
      ∀ r ∈ cfg, ∃ t, lookupTier cache r.name = some t ∧
        (t = 1 ↔ r.components = []) ∧
        (r.components ≠ [] →
          (∀ c ∈ r.components, (lookupTier cache c).isSome = true) ∧
          t = 1 + (r.components.map (fun c => (lookupTier cache c).getD 0)).foldl max 0) := by
  have hacyc' : ∀ x, ¬ Relation.TransGen (DependsOn cfg) x x :=
    fun x hx => hacyc ⟨x, hx⟩
  obtain ⟨cache, hrun⟩ :=
    initTiersFrom_acyc_ok cfg hwf hnd hacyc' cfg [] (fun r hr => hr)
  obtain ⟨hcf, -, hall⟩ :=
    initTiersFrom_spec cfg cfg [] cache (conforms_nil cfg) hrun
  refine ⟨cache, hrun, ?_⟩
  intro r hr
  obtain ⟨t, ht⟩ := hall r hr
  obtain ⟨res, hfind, h1, h2⟩ := hcf r.name t ht
  obtain rfl := Option.some.inj ((findRes_self hnd hr).symm.trans hfind)
  refine ⟨t, ht, ⟨?_, fun hnil => h1 (by rw [hnil]; rfl)⟩, ?_⟩
  · intro ht1
    by_contra hne
    have hce : r.components.isEmpty = false := by
      cases hc : r.components with
      | nil => exact absurd hc hne
      | cons x xs => rfl
    obtain ⟨hall', ht'⟩ := h2 hce
    obtain ⟨c, hcmem⟩ := List.exists_mem_of_ne_nil r.components hne
    obtain ⟨tc, htc⟩ := Option.isSome_iff_exists.mp (hall' c hcmem)
    have h1c : 1 ≤ tc := conforms_tier_pos hcf htc
    have hmem : (lookupTier cache c).getD 0 ∈
        r.components.map (fun c => (lookupTier cache c).getD 0) :=
      List.mem_map.mpr ⟨c, hcmem, rfl⟩
    have hle := le_foldl_max_of_mem hmem 0
    rw [htc, Option.getD_some] at hle
    omega
  · intro hne
    have hce : r.components.isEmpty = false := by
      cases hc : r.components with
      | nil => exact absurd hc hne
      | cons x xs => rfl
    obtain ⟨hall', ht'⟩ := h2 hce
    exact ⟨hall', by omega⟩


/-- C8: in any configuration satisfying the data model (unique names,
every component reference resolving) that contains a dependency cycle, tier
derivation fails with a circular-dependency error naming a declared resource;
in particular it never returns a tier table. -/
theorem tier_cycle_error (cfg : List RawResource) (hwf : WellFormedCfg cfg)
    (hnd : NamesNodup cfg) (hcyc : HasCycle cfg) :
    ∃ x, initTiers cfg = .error (.circularDependency x) ∧ x ∈ cfg.map (·.name) := by
  cases hres : initTiers cfg with
  | ok cache =>
      exfalso
      unfold initTiers at hres
      obtain ⟨hcf, -, hall⟩ :=
        initTiersFrom_spec cfg cfg [] cache (conforms_nil cfg) hres
      have hpres : ∀ r ∈ cfg, (lookupTier cache r.name).isSome = true := by
        intro r hr
        obtain ⟨t, ht⟩ := hall r hr
        rw [ht]
        rfl
      exact rank_no_cycle cfg (fun n => (lookupTier cache n).getD 0)
        (fun a b hab => conforms_edge_lt cfg hnd hcf hpres hab) hcyc
  | error e =>
      unfold initTiers at hres
      obtain ⟨x, rfl, hx⟩ := initTiersFrom_classify cfg hwf hnd cfg [] e
        (fun r hr => hr) hres
      exact ⟨x, rfl, hx⟩

/-- A rank certificate for the acyclicity of the app's own configuration:
the tiers the spec itself assigns. -/
def tierRank (n : String) : Nat :=
  if n = "consumer_goods" then 3 else if n = "steel" then 2 else if n = "plastics" then 2 else 1

theorem rawResources_rank_lt :
    ∀ a b, DependsOn rawResources a b → tierRank b < tierRank a := by
  intro a b hab
  obtain ⟨r, hr, rfl, hb⟩ := hab
  simp only [rawResources, List.mem_cons, List.not_mem_nil, or_false] at hr
  rcases hr with rfl | rfl | rfl | rfl | rfl | rfl <;>
    simp only [ironRes, coalRes, oilRes, steelRes, plasticsRes, consumerGoodsRes,
      List.mem_cons, List.not_mem_nil, or_false] at hb <;>
    (rcases hb with rfl | rfl <;> decide)

/-- C7 witness: the recurrence at the app's own configuration, with
acyclicity certified by the rank function `tierRank`. -/
theorem tier_recurrence_witness :
    ∃ cache, initTiers rawResources = .ok cache ∧
      ∀ r ∈ rawResources, ∃ t, lookupTier cache r.name = some t ∧
        (t = 1 ↔ r.components = []) ∧
        (r.components ≠ [] →
          (∀ c ∈ r.components, (lookupTier cache c).isSome = true) ∧
          t = 1 + (r.components.map (fun c => (lookupTier cache c).getD 0)).foldl max 0) :=
  tier_recurrence rawResources (by unfold WellFormedCfg; decide)
    (by unfold NamesNodup; decide)
    (rank_no_cycle rawResources tierRank rawResources_rank_lt)

/-- The two-resource cyclic configuration of the claim: `a` lists `b` as a
component and `b` lists `a`. -/
def cycleA : RawResource :=
  { name := "a", label := "A", components := ["b"], min := none, icon := "x" }

def cycleB : RawResource :=
  { name := "b", label := "B", components := ["a"], min := none, icon := "x" }

def cycleCfg : List RawResource := [cycleA, cycleB]

/-- C8 witness: the mutual `a`/`b` cycle of the claim fails with a cycle
error naming a declared resource. -/
theorem tier_cycle_error_witness :
    ∃ x, initTiers cycleCfg = .error (.circularDependency x) ∧
      x ∈ cycleCfg.map (·.name) := by
  have hab : DependsOn cycleCfg "a" "b" := ⟨cycleA, by decide, by decide, by decide⟩
  have hba : DependsOn cycleCfg "b" "a" := ⟨cycleB, by decide, by decide, by decide⟩
  exact tier_cycle_error cycleCfg (by unfold WellFormedCfg; decide)
    (by unfold NamesNodup; decide)
    ⟨"a", Relation.TransGen.head hab (Relation.TransGen.single hba)⟩

/-! ## The minimum computation (`src/hooks/useResources.js`, lines 60-69)

`computeMin(resource, currentValues)` in the source takes an arbitrary values
object (possibly null/undefined, possibly missing keys).  The line
`sum += currentValues ? currentValues[c] : 0` adds `0` per component when the
whole map is absent, but adds `undefined` (making the sum `NaN`) when the map
is present and the component key is absent.  `computeMin` models this with an
optional association list and an optional result (`none` = `NaN`).
`computeMinTotal` is the same function specialised to the total value maps of
the running engine, where every declared resource has an entry. -/

/-- JavaScript `x || d` for the numeric field `resource.min` (`0` is falsy). -/
def jsOrInt (x : Option Int) (d : Int) : Int :=
  match x with
  | some v => if v = 0 then d else v
  | none => d

def lookupVal (m : List (String × Int)) (k : String) : Option Int :=
  (m.find? (·.1 = k)).map (·.2)

/-- One step of the summation loop `sum += currentValues ? currentValues[c] : 0`;
a `NaN` sum (`none`) is absorbing, and an absent key under a present map
produces `NaN`. -/
def addComponentValue (currentValues : Option (List (String × Int))) (sum : Option Int)
    (c : String) : Option Int :=
  match sum, (match currentValues with
              | none => some 0
              | some m => lookupVal m c) with
  | some s, some v => some (s + v)
  | _, _ => none

def computeMin (resource : RawResource) (currentValues : Option (List (String × Int))) :
    Option Int :=
  if resource.components.isEmpty then some (jsOrInt resource.min 5)
  else resource.components.foldl (addComponentValue currentValues) (some 0)

/-- `computeMin` over a total values map (the engine always queries it on
fully-initialised state). -/
def computeMinTotal (r : RawResource) (vals : String → Int) : Int :=
  if r.components.isEmpty then jsOrInt r.min 5
  else (r.components.map vals).sum

/-! ## Engine state (`src/hooks/useResources.js`) -/

/-- Pointwise update of a string-keyed map, `{ ...m, [k]: v }`. -/
def upd {α : Type} (f : String → α) (k : String) (v : α) : String → α :=
  fun x => if x = k then v else f x

/-- One record of a change-group: `{name, prevValue, nextValue, cascading?}`. -/
structure Change where
  name : String
  prevValue : Int
  nextValue : Int
  cascading : Bool
deriving Repr, DecidableEq

/-- One entry of the action log: `{ changes: [...] }`. -/
structure ChangeGroup where
  changes : List Change
deriving Repr, DecidableEq

structure EngineState where
  values : String → Int
  histories : String → List Int
  actionLog : List ChangeGroup

/-- `resourceMap[name]` (`useResources.js`, line 13). -/
def resourceFind (name : String) : Option RawResource :=
  rawResources.find? (·.name = name)

/-- `dependentsMap[c] || []` (`useResources.js`, lines 14-22): the resources
that list `c` among their components, in declaration order. -/
def dependentsMap (c : String) : List String :=
  rawResources.foldl (fun acc r => acc ++ (r.components.filter (· = c)).map (fun _ => r.name)) []

/-- State threaded through the cascade: pending queue, visited set, values,
accumulated cascade records. -/
def CascState : Type :=
  List String × List String × (String → Int) × List Change

/-- Inner loop of the cascade (`useResources.js`, lines 145-159): scan the
dependents of the popped resource, raising each one that fell below its
recomputed minimum and enqueueing it if unseen. -/
def processDeps : List String → CascState → CascState
  | [], s => s
  | depName :: rest, (queue, visited, vals, acc) =>
    match resourceFind depName with
    | none => processDeps rest (queue, visited, vals, acc)
    | some depResource =>
      let depMin := computeMinTotal depResource vals
      let depPrev := vals depName
      if depPrev < depMin then
        let vals' := upd vals depName depMin
        let acc' := acc ++ [⟨depName, depPrev, depMin, true⟩]
        if depName ∈ visited then processDeps rest (queue, visited, vals', acc')
        else processDeps rest (queue ++ [depName], depName :: visited, vals', acc')
      else processDeps rest (queue, visited, vals, acc)

/-- Outer breadth-first loop of the cascade (`useResources.js`, lines 141-160):
`queue.shift()` then process dependents.  The JavaScript `while (queue.length)`
loop needs no fuel: every enqueue inserts a fresh name into `visited`, and all
names come from the six declared resources, so at most 7 queue elements are
ever popped.  The fuel `16` supplied by `setResourceValueWithMin` is therefore
never exhausted. -/
def cascadeStep : Nat → CascState → (String → Int) × List Change
  | 0, (_, _, vals, acc) => (vals, acc)
  | _ + 1, ([], _, vals, acc) => (vals, acc)
  | fuel + 1, (current :: rest, visited, vals, acc) =>
    cascadeStep fuel (processDeps (dependentsMap current) (rest, visited, vals, acc))

/-- History update (`useResources.js`, lines 165-172): for every record of the
group, append its `nextValue` to that resource's history. -/
def applyHistories (grouped : List Change) (hist : String → List Int) : String → List Int :=
  grouped.foldl (fun h ch => upd h ch.name (h ch.name ++ [ch.nextValue])) hist

/-- Core of `setResourceValue` (`useResources.js`, lines 116-178) once the
resource was found and its minimum `minv` computed from the closure snapshot:
clamp the proposed value up to `minv` (unless `ignoreMin`), apply the primary
change, cascade on an increase, then record histories and the action-log
group.  The input is taken already resolved to a number: the source coerces
numeric strings and silently drops non-numeric input (`return prevVals`), and
resolves updater functions to `f(prev)`, so every effectful call is covered by
quantifying over the integer `next`. -/
def setResourceValueWithMin (ignoreMin : Bool) (minv : Int) (name : String) (next : Int)
    (st : EngineState) : EngineState :=
  let prevValue := st.values name
  let nextValue := if ¬ignoreMin ∧ next < minv then minv else next
  let newVals0 := upd st.values name nextValue
  let cascRes :=
    if ¬ignoreMin ∧ prevValue < nextValue then cascadeStep 16 ([name], [name], newVals0, [])
    else (newVals0, [])
  let grouped : List Change := ⟨name, prevValue, nextValue, false⟩ :: cascRes.2
  { values := cascRes.1
    histories := applyHistories grouped st.histories
    actionLog := st.actionLog ++ [⟨grouped⟩] }

/-- `setResourceValue` as called with an explicit closure snapshot `vals₀`:
the `min` comes from `getBounds(resource)`, which reads the `values` closure of
the render in which the handler was created.  For a single standalone call the
snapshot is the current state (see `setResourceValue`); inside a batch such as
`completeContract`'s loop all calls share the pre-batch snapshot. -/
def setResourceValueSnap (ignoreMin : Bool) (vals₀ : String → Int) (name : String) (next : Int)
    (st : EngineState) : EngineState :=
  match resourceFind name with
  | none => st
  | some resource =>
    setResourceValueWithMin ignoreMin (computeMinTotal resource vals₀) name next st

/-- A single `setResourceValue(name, next)` call between events. -/
def setResourceValue (ignoreMin : Bool) (name : String) (next : Int) (st : EngineState) :
    EngineState :=
  setResourceValueSnap ignoreMin st.values name next st

/-- JavaScript `new Set(list)` iterated in insertion order: first occurrences. -/
def jsSetList (l : List String) : List String :=
  l.foldl (fun acc x => if x ∈ acc then acc else acc ++ [x]) []

/-- The history-trimming loop of `undoLastChange` (`useResources.js`, lines
232-236): pop trailing entries while they match one of the undone values. -/
def trimTail (nextVals : List Int) (arr : List Int) : List Int :=
  ((arr.reverse).dropWhile (· ∈ nextVals)).reverse

/-- `undoLastChange` (`useResources.js`, lines 208-243). -/
def undoLastChange (st : EngineState) : EngineState :=
  match st.actionLog.getLast? with
  | none => st
  | some lastGroup =>
    let newLog := st.actionLog.dropLast
    let changes := lastGroup.changes.reverse
    let values' := changes.foldl (fun v ch => upd v ch.name ch.prevValue) st.values
    let touched := jsSetList (changes.map (·.name))
    let histories' := touched.foldl
      (fun h name =>
        let relevant := changes.filter (·.name = name)
        let nextVals := relevant.map (·.nextValue)
        upd h name (trimTail nextVals (h name)))
      st.histories
    { values := values', histories := histories', actionLog := newLog }

/-- `buildInitial` values (`useResources.js`, lines 103-109): each resource's
value is its minimum, computed in declaration order so components settle
first.  (The JavaScript starts from an empty object; since components precede
their dependents in `rawResources`, only already-assigned keys are read, so
the base function is never consulted.) -/
def initialValues : String → Int :=
  rawResources.foldl (fun vals r => upd vals r.name (computeMinTotal r vals)) (fun _ => 0)

/-- `buildInitial` histories: a singleton history per resource, `[]` for
unknown keys (`histories[name] || []`). -/
def initialHistories : String → List Int :=
  rawResources.foldl (fun h r => upd h r.name [initialValues r.name]) (fun _ => [])

def initialState : EngineState :=
  { values := initialValues, histories := initialHistories, actionLog := [] }

/-- The floor invariant of the spec: every resource with components is worth
at least the sum of its direct components' current values. -/
def FloorInv (vals : String → Int) : Prop :=
  ∀ r ∈ rawResources, r.components ≠ [] → (r.components.map vals).sum ≤ vals r.name

instance : DecidablePred FloorInv := fun vals => by
  unfold FloorInv; infer_instance

/-- A sequence of `setResourceValue` calls (name, proposed value), applied left
to right with minimum enforcement active. -/
def applyCalls (calls : List (String × Int)) (st : EngineState) : EngineState :=
  calls.foldl (fun s c => setResourceValue false c.1 c.2 s) st

/-! ## Contracts (`src/hooks/useContracts.js`) -/

/-- A generated contract (`useContracts.js`, lines 92-101).  `resources` is the
insertion-ordered `selectedResources` object; `maxResources` uses `none` for
the JavaScript default `Infinity`. -/
structure Contract where
  value : Int
  reward : Int
  resources : List (String × Nat)
  id : Int
  label : String
  difficulty : ℚ
  rewardRange : ℚ × ℚ
  maxResources : Option Nat
deriving Repr, DecidableEq

/-- The contract-side state owned by `useContracts`: the active list and the
target-value escalator `currentTargetValue`. -/
structure ContractsState where
  contracts : List Contract
  currentTargetValue : ℚ
deriving Repr, DecidableEq

/-- Modelled from the spec: `src/constants/contract-labels.js` is imported by
`useContracts.js` but is not among the sources; the spec says only that labels
are "drawn without repetition from a finite label pool until exhausted".  The
pool's contents are presentational and no claim depends on them, so an
arbitrary finite pool stands in. -/
def ContractLabels : List String :=
  ["Northline Freight", "Harbor Supply Run", "Meridian Works Order"]

/-- `Math.floor(Math.random() * len)` used as an index. -/
def randIndex (roll : ℚ) (len : Nat) : Nat :=
  (Int.floor (roll * len)).toNat

/-- `values[name]`; resource names fed to it are drawn from the keys of the
same map, so the `0` default is never consulted under the theorems'
hypotheses. -/
def valueOf (values : List (String × Int)) (name : String) : Int :=
  (lookupVal values name).getD 0

/-- `selectedResources[name] = (selectedResources[name] || 0) + 1`, keeping
object insertion order. -/
def bumpSel (sel : List (String × Nat)) (name : String) : List (String × Nat) :=
  if (sel.find? (·.1 = name)).isSome then
    sel.map (fun p => if p.1 = name then (p.1, p.2 + 1) else p)
  else sel ++ [(name, 1)]

/-- `Object.keys(selectedResources).length < maxResources` with
`maxResources = Infinity` encoded as `none`. -/
def underMax (count : Nat) (maxResources : Option Nat) : Bool :=
  match maxResources with
  | none => true
  | some m => count < m

/-- The randomness consumed by one `generateRandomContract` call.  `shuffle`
stands for `allResources.sort(() => 0.5 - Math.random())`, whose result with a
random comparator is some permutation of its input; oracle validity only
requires it to be a permutation.  `pickRoll i` is the `Math.random()` of the
`i`-th accumulation-loop iteration. -/
structure Oracle where
  specialistRoll : ℚ
  countRoll : ℚ
  shuffle : List String → List String
  pickRoll : Nat → ℚ
  labelRoll : ℚ
  rewardRoll : ℚ

def Oracle.Valid (o : Oracle) : Prop :=
  (0 ≤ o.specialistRoll ∧ o.specialistRoll < 1) ∧
  (0 ≤ o.countRoll ∧ o.countRoll < 1) ∧
  (∀ i, 0 ≤ o.pickRoll i ∧ o.pickRoll i < 1) ∧
  (0 ≤ o.labelRoll ∧ o.labelRoll < 1) ∧
  (0 ≤ o.rewardRoll ∧ o.rewardRoll < 1) ∧
  (∀ l, (o.shuffle l).Perm l)

/-- Specialist accumulation loop (`useContracts.js`, lines 58-64): while the
running total is below the scaled target, pick a random specialist resource;
stop if adding it would exceed the target, otherwise add one unit.  The fuel
argument models the unbounded JavaScript `while`; `none` means the loop has
not terminated within the given fuel.  (If the specialist list were empty the
JavaScript iteration would read `values[undefined]`, producing a `NaN` total
that exits the loop; the theorems below assume a nonempty resource map and
`maxResources ≥ 1`, under which the list is nonempty.) -/
def specialistAccumulate (values : List (String × Int)) (scaledTarget : ℚ)
    (specialist : List String) (pickRoll : Nat → ℚ) :
    Nat → Nat → Int → List (String × Nat) → Option (Int × List (String × Nat))
  | 0, _, _, _ => none
  | fuel + 1, i, currentValue, sel =>
    if (currentValue : ℚ) < scaledTarget then
      if specialist.isEmpty then some (currentValue, sel)
      else
        let resName := specialist.getD (randIndex (pickRoll i) specialist.length) ""
        let resValue := valueOf values resName
        if scaledTarget < (resValue + currentValue : ℚ) then some (currentValue, sel)
        else
          specialistAccumulate values scaledTarget specialist pickRoll
            fuel (i + 1) (currentValue + resValue) (bumpSel sel resName)
    else some (currentValue, sel)

/-- General accumulation loop (`useContracts.js`, lines 66-74): filter the
resources whose unit value still fits under the target (and, once the distinct
cap is reached, that are already selected); stop when none remains, otherwise
add one unit of a random eligible resource. -/
def generalAccumulate (values : List (String × Int)) (scaledTarget : ℚ)
    (maxResources : Option Nat) (pickRoll : Nat → ℚ) :
    Nat → Nat → Int → List (String × Nat) → Option (Int × List (String × Nat))
  | 0, _, _, _ => none
  | fuel + 1, i, currentValue, sel =>
    if (currentValue : ℚ) < scaledTarget then
      let resourceEntries := values.filter
        (fun p => ((p.2 + currentValue : Int) : ℚ) ≤ scaledTarget ∧
          (underMax sel.length maxResources ∨ (sel.find? (·.1 = p.1)).isSome))
      if resourceEntries.isEmpty then some (currentValue, sel)
      else
        let picked := resourceEntries.getD (randIndex (pickRoll i) resourceEntries.length)
          ("", 0)
        generalAccumulate values scaledTarget maxResources pickRoll
          fuel (i + 1) (currentValue + picked.2) (bumpSel sel picked.1)
    else some (currentValue, sel)

/-- Label selection and contract assembly (`useContracts.js`, lines 77-101):
pick an unused label (or the positional fallback), reconcile the reward
multiplier bounds (floored at 0.1 and ordered), draw the multiplier, and
record the contract. -/
def buildContract (contracts : List Contract)
    (contractDifficulty rewardMinMultiplier rewardMaxMultiplier : ℚ)
    (maxResources : Option Nat) (labelRoll rewardRoll : ℚ) (id : Int)
    (acc : Int × List (String × Nat)) : Contract :=
  let existingLabels := contracts.map (·.label)
  let availableLabels := ContractLabels.filter (fun l => ¬ l ∈ existingLabels)
  let label :=
    if availableLabels.isEmpty then "Contract " ++ toString (id + 1)
    else availableLabels.getD (randIndex labelRoll availableLabels.length) ""
  let minMult := max 0.1 (min rewardMinMultiplier rewardMaxMultiplier)
  let maxMult := max minMult rewardMaxMultiplier
  let reward := Int.floor ((acc.1 : ℚ) * (minMult + rewardRoll * (maxMult - minMult)))
  { value := acc.1
    reward := reward
    resources := acc.2
    id := id
    label := label
    difficulty := contractDifficulty
    rewardRange := (minMult, maxMult)
    maxResources := maxResources }

/-- `generateRandomContract(targetValue, id)` (`useContracts.js`, lines
42-103).  `values`, `contracts`, `contractDifficulty`, the reward multiplier
bounds and `maxResources` are the hook-scope inputs; `o` supplies the random
rolls and `fuel` bounds the accumulation loops (`none` = the JavaScript loop
is still running). -/
def generateRandomContract (values : List (String × Int)) (contracts : List Contract)
    (contractDifficulty rewardMinMultiplier rewardMaxMultiplier : ℚ)
    (maxResources : Option Nat) (o : Oracle) (fuel : Nat) (targetValue : ℚ) (id : Int) :
    Option Contract :=
  let scaledTarget := targetValue * contractDifficulty
  let accumulated :=
    if o.specialistRoll < 0.5 then
      let numSpecialists : Nat := if o.countRoll < 0.5 then 1 else 2
      let allResources := values.map (·.1)
      let shuffled := o.shuffle allResources
      let specialistResource := shuffled.take
        (match maxResources with
         | none => numSpecialists
         | some m => min numSpecialists m)
      specialistAccumulate values scaledTarget specialistResource o.pickRoll fuel 0 0 []
    else
      generalAccumulate values scaledTarget maxResources o.pickRoll fuel 0 0 []
  Option.map
    (buildContract contracts contractDifficulty rewardMinMultiplier rewardMaxMultiplier
      maxResources o.labelRoll o.rewardRoll id)
    accumulated

/-- `completeContract(contractId)` (`useContracts.js`, lines 115-126): remove
the contract, multiply the escalator by 1.1 (unconditionally), and, if the id
was found, decrease each bundled resource via `setResourceValue`; both the
value read `values[name]` and the clamp minimum inside `setResourceValue` use
the pre-call snapshot, while the state threads through the loop. -/
def completeContract (ignoreMin : Bool) (contractId : Int) (cst : ContractsState)
    (est : EngineState) : ContractsState × EngineState :=
  let contract := cst.contracts.find? (·.id = contractId)
  let contracts' := cst.contracts.filter (fun c => ¬ c.id = contractId)
  let target' := cst.currentTargetValue * 1.1
  let est' :=
    match contract with
    | none => est
    | some c =>
      let vals₀ := est.values
      c.resources.foldl
        (fun e p =>
          setResourceValueSnap ignoreMin vals₀ p.1
            (max 2 (Int.floor ((vals₀ p.1 : ℚ) * (1 - 0.05 * (p.2 : ℚ))))) e)
        est
  ({ contracts := contracts', currentTargetValue := target' }, est')

/-- `onContractDecay(contractId)` (`useContracts.js`, lines 146-154): remove
the contract and, if found, inflate each bundled resource; the escalator is
untouched. -/
def onContractDecay (ignoreMin : Bool) (contractId : Int) (cst : ContractsState)
    (est : EngineState) : ContractsState × EngineState :=
  let contract := cst.contracts.find? (·.id = contractId)
  let contracts' := cst.contracts.filter (fun c => ¬ c.id = contractId)
  let est' :=
    match contract with
    | none => est
    | some c =>
      let vals₀ := est.values
      c.resources.foldl
        (fun e p =>
          setResourceValueSnap ignoreMin vals₀ p.1
            (Int.ceil ((vals₀ p.1 : ℚ) * (1 + 0.05 * (p.2 : ℚ)))) e)
        est
  ({ contracts := contracts', currentTargetValue := cst.currentTargetValue }, est')

/-! ## Noise (`src/hooks/useEconomicNoise.js`) -/

/-- `computeAdjustment(res)` (`useEconomicNoise.js`, lines 21-53) for the
resource record `{min, value, name}` built by `byTier`, with the two
`Math.random()` rolls passed in.  `some (name, next)` models the returned
adjustment object (the 40%-skip branch returns the unchanged value, which the
tick still feeds to `setResourceValue`); `none` models `return null`.
Division is exact rational division; at `minv = 0` the JavaScript quotient
would be `NaN`/`±Infinity` while `ℚ` yields `0` — both land in the same
direction-selection structure, and the boundary theorem below only needs the
`value = minv` case, where both semantics give a no-op or a `+1` step. -/
def computeAdjustment (ignoreMin : Bool) (name : String) (minv value : Int) (r1 r2 : ℚ) :
    Option (String × Int) :=
  if r1 < 0.4 then some (name, value)
  else if ignoreMin then
    let aboveMinPercentage : ℚ := |(value : ℚ) - (minv : ℚ)| / (minv : ℚ)
    let pDown := 0.5 + 0.4 * aboveMinPercentage
    let towardsMin : Int := if minv < value then -1 else 1
    let direction := if r2 < pDown then towardsMin else -towardsMin
    let target := value + direction
    let target2 := if target < 1 then 1 else target
    if target2 = value then none else some (name, target2)
  else
    let aboveMinPercentage : ℚ := ((value : ℚ) - (minv : ℚ)) / (minv : ℚ)
    let pDown := 0.1 + 0.8 * aboveMinPercentage
    let direction : Int := if r2 < pDown then -1 else 1
    let target := value + direction
    let target2 := if target < minv then minv else target
    if target2 = value then none else some (name, target2)

/-- One noise tick (`useEconomicNoise.js`, lines 55-66): every resource is
visited in `byTier` order (which for this configuration is declaration order),
each adjustment computed from the snapshot `byTier`/`values` taken at tick
start, and every non-null adjustment fed through `setResourceValue` (whose
closure `min` also reads the snapshot). -/
def tick (ignoreMin : Bool) (rolls : Nat → ℚ × ℚ) (st : EngineState) : EngineState :=
  let vals₀ := st.values
  (rawResources.enum.foldl
    (fun e rp =>
      match computeAdjustment ignoreMin rp.2.name (computeMinTotal rp.2 vals₀)
          (vals₀ rp.2.name) (rolls rp.1).1 (rolls rp.1).2 with
      | none => e
      | some adj => setResourceValueSnap ignoreMin vals₀ adj.1 adj.2 e)
    st)

/-! ## Claim C6: `computeMin` -/

theorem addComponentValue_none (cv : Option (List (String × Int))) (c : String) :
    addComponentValue cv none c = none := by
  unfold addComponentValue
  cases cv with
  | none => rfl
  | some m => cases lookupVal m c <;> rfl

theorem foldl_addCV_absorb (cv : Option (List (String × Int))) (cs : List String) :
    cs.foldl (addComponentValue cv) none = none := by
  induction cs with
  | nil => rfl
  | cons c cs ih => rw [List.foldl_cons, addComponentValue_none, ih]

theorem foldl_addCV_nullMap (cs : List String) (s : Int) :
    cs.foldl (addComponentValue none) (some s) = some s := by
  induction cs generalizing s with
  | nil => rfl
  | cons c cs ih =>
    rw [List.foldl_cons, show addComponentValue none (some s) c = some (s + 0) from rfl, ih]
    simp

theorem foldl_addCV_present (m : List (String × Int)) (cs : List String)
    (h : ∀ c ∈ cs, (lookupVal m c).isSome) (s : Int) :
    cs.foldl (addComponentValue (some m)) (some s) =
      some (s + (cs.map (fun c => (lookupVal m c).getD 0)).sum) := by
  induction cs generalizing s with
  | nil => simp
  | cons c cs ih =>
    obtain ⟨v, hv⟩ := Option.isSome_iff_exists.mp (h c (List.mem_cons_self c cs))
    have hstep : addComponentValue (some m) (some s) c = some (s + v) := by
      unfold addComponentValue
      rw [show (match (some m : Option (List (String × Int))) with
                | none => (some 0 : Option Int)
                | some m => lookupVal m c) = lookupVal m c from rfl, hv]
    rw [List.foldl_cons, hstep, ih (fun x hx => h x (List.mem_cons_of_mem c hx)) (s + v)]
    simp [hv, add_assoc]

theorem foldl_addCV_missing (m : List (String × Int)) (cs : List String)
    (h : ∃ c ∈ cs, lookupVal m c = none) (acc : Option Int) :
    cs.foldl (addComponentValue (some m)) acc = none := by
  induction cs generalizing acc with
  | nil => simp at h
  | cons c cs ih =>
    rw [List.foldl_cons]
    obtain ⟨x, hx, hnone⟩ := h
    rcases List.mem_cons.mp hx with rfl | hx'
    · have : addComponentValue (some m) acc x = none := by
        unfold addComponentValue
        rw [show (match (some m : Option (List (String × Int))) with
                  | none => (some 0 : Option Int)
                  | some m => lookupVal m x) = lookupVal m x from rfl, hnone]
        cases acc <;> rfl
      rw [this, foldl_addCV_absorb]
    · by_cases hc : addComponentValue (some m) acc c = none
      · rw [hc, foldl_addCV_absorb]
      · exact ih ⟨x, hx', hnone⟩ _

/-- C6 counterexample: for `steel` (components `iron`, `coal`) and a present
values map binding only `iron`, the claim predicts the absent `coal` to
contribute `0`, i.e. a result of `7 + 0`; the code instead adds `undefined`,
yielding `NaN` (modelled as `none`). -/
theorem computeMin_absent_component_cex :
    computeMin steelRes (some [("iron", 7)]) ≠ some (7 + 0) := by decide

/-- C6 (amended): `computeMin` returns `resource.min || 5` when the component
list is empty; with components, it returns `0` when the values map itself is
absent, the sum of the components' values when the map binds every component,
and `NaN` (no numeric result) when the map is present but misses some
component. -/
theorem computeMin_spec (r : RawResource) :
    (r.components = [] → ∀ cv, computeMin r cv = some (jsOrInt r.min 5)) ∧
    (r.components ≠ [] → computeMin r none = some 0) ∧
    (∀ m, r.components ≠ [] → (∀ c ∈ r.components, (lookupVal m c).isSome) →
      computeMin r (some m) =
        some ((r.components.map (fun c => (lookupVal m c).getD 0)).sum)) ∧
    (∀ m, r.components ≠ [] → (∃ c ∈ r.components, lookupVal m c = none) →
      computeMin r (some m) = none) := by
  refine ⟨?_, ?_, ?_, ?_⟩
  · intro h _
    unfold computeMin
    rw [if_pos (List.isEmpty_iff.mpr h)]
  · intro h
    unfold computeMin
    rw [if_neg (by simpa [List.isEmpty_iff] using h)]
    exact foldl_addCV_nullMap r.components 0
  · intro m h hall
    unfold computeMin
    rw [if_neg (by simpa [List.isEmpty_iff] using h)]
    rw [foldl_addCV_present m r.components hall 0]
    simp
  · intro m h hmiss
    unfold computeMin
    rw [if_neg (by simpa [List.isEmpty_iff] using h)]
    exact foldl_addCV_missing m r.components hmiss _

/-- C6 witness: the fully-bound clause of `computeMin_spec` evaluated at
`steel` with both components present. -/
theorem computeMin_spec_witness :
    computeMin steelRes (some [("iron", 1), ("coal", 2)]) =
      some ((steelRes.components.map
        (fun c => (lookupVal [("iron", 1), ("coal", 2)] c).getD 0)).sum) :=
  (computeMin_spec steelRes).2.2.1 [("iron", 1), ("coal", 2)] (by decide) (by decide)

/-! ## Claim C4: `completeContract` / `onContractDecay` on an inactive id -/

theorem filter_id_of_find?_none {l : List Contract} {cid : Int}
    (h : l.find? (·.id = cid) = none) : l.filter (fun c => ¬ c.id = cid) = l := by
  rw [List.filter_eq_self]
  intro c hc
  have := List.find?_eq_none.mp h c hc
  simpa using this

/-- C4 counterexample: completing an id that is not in the active set is not a
no-op — the target-value escalator is still multiplied by 1.1 (the source
calls `setCurrentTargetValue` before checking whether the contract was
found). -/
theorem completeContract_missing_id_cex :
    ((completeContract false 1 ⟨[], 50⟩ initialState).1).currentTargetValue ≠
      (⟨[], 50⟩ : ContractsState).currentTargetValue := by
  unfold completeContract
  norm_num

/-- C4 (amended): for an id not in the active set, `onContractDecay` is a
complete no-op, and `completeContract` leaves the contract collection and all
resource values unchanged and raises no error, but still multiplies the
target-value escalator by 1.1. -/
theorem inactive_id_effects (cid : Int) (cst : ContractsState) (est : EngineState)
    (h : cst.contracts.find? (·.id = cid) = none) :
    onContractDecay false cid cst est = (cst, est) ∧
    completeContract false cid cst est =
      ({ contracts := cst.contracts, currentTargetValue := cst.currentTargetValue * 1.1 },
        est) := by
  constructor
  · unfold onContractDecay
    rw [h, filter_id_of_find?_none h]
  · unfold completeContract
    rw [h, filter_id_of_find?_none h]

/-! ## Evaluation lemmas for the fixed resource graph

These compute the concrete lookups and adjacency of the six-resource
configuration once, so that the cascade proofs below can unfold the
breadth-first traversal symbolically. -/

theorem dependentsMap_iron : dependentsMap "iron" = ["steel"] := by decide

theorem dependentsMap_coal : dependentsMap "coal" = ["steel", "plastics"] := by decide

theorem dependentsMap_oil : dependentsMap "oil" = ["plastics"] := by decide

theorem dependentsMap_steel : dependentsMap "steel" = ["consumer_goods"] := by decide

theorem dependentsMap_plastics : dependentsMap "plastics" = ["consumer_goods"] := by decide

theorem dependentsMap_cg : dependentsMap "consumer_goods" = [] := by decide

theorem resourceFind_iron : resourceFind "iron" = some ironRes := by decide

theorem resourceFind_coal : resourceFind "coal" = some coalRes := by decide

theorem resourceFind_oil : resourceFind "oil" = some oilRes := by decide

theorem resourceFind_steel : resourceFind "steel" = some steelRes := by decide

theorem resourceFind_plastics : resourceFind "plastics" = some plasticsRes := by decide

theorem resourceFind_cg : resourceFind "consumer_goods" = some consumerGoodsRes := by decide

theorem ironRes_name : ironRes.name = "iron" := rfl

theorem coalRes_name : coalRes.name = "coal" := rfl

theorem oilRes_name : oilRes.name = "oil" := rfl

theorem steelRes_name : steelRes.name = "steel" := rfl

theorem plasticsRes_name : plasticsRes.name = "plastics" := rfl

theorem consumerGoodsRes_name : consumerGoodsRes.name = "consumer_goods" := rfl

theorem computeMinTotal_iron (vals : String → Int) : computeMinTotal ironRes vals = 5 := rfl

theorem computeMinTotal_coal (vals : String → Int) : computeMinTotal coalRes vals = 10 := rfl

theorem computeMinTotal_oil (vals : String → Int) : computeMinTotal oilRes vals = 5 := rfl

theorem computeMinTotal_steel (vals : String → Int) :
    computeMinTotal steelRes vals = vals "iron" + (vals "coal" + 0) := rfl

theorem computeMinTotal_plastics (vals : String → Int) :
    computeMinTotal plasticsRes vals = vals "oil" + (vals "coal" + 0) := rfl

theorem computeMinTotal_cg (vals : String → Int) :
    computeMinTotal consumerGoodsRes vals = vals "steel" + (vals "plastics" + 0) := rfl

theorem upd_apply {α : Type} (f : String → α) (k : String) (v : α) (x : String) :
    upd f k v x = if x = k then v else f x := rfl

theorem cascadeStep_qnil (fuel : Nat) (vis : List String) (vals : String → Int)
    (acc : List Change) : cascadeStep fuel ([], vis, vals, acc) = (vals, acc) := by
  cases fuel <;> rfl

theorem cascadeStep16 (cur : String) (rest vis : List String) (vals : String → Int)
    (acc : List Change) :
    cascadeStep 16 (cur :: rest, vis, vals, acc) =
      cascadeStep 15 (processDeps (dependentsMap cur) (rest, vis, vals, acc)) := rfl

theorem cascadeStep15 (cur : String) (rest vis : List String) (vals : String → Int)
    (acc : List Change) :
    cascadeStep 15 (cur :: rest, vis, vals, acc) =
      cascadeStep 14 (processDeps (dependentsMap cur) (rest, vis, vals, acc)) := rfl

theorem cascadeStep14 (cur : String) (rest vis : List String) (vals : String → Int)
    (acc : List Change) :
    cascadeStep 14 (cur :: rest, vis, vals, acc) =
      cascadeStep 13 (processDeps (dependentsMap cur) (rest, vis, vals, acc)) := rfl

theorem cascadeStep13 (cur : String) (rest vis : List String) (vals : String → Int)
    (acc : List Change) :
    cascadeStep 13 (cur :: rest, vis, vals, acc) =
      cascadeStep 12 (processDeps (dependentsMap cur) (rest, vis, vals, acc)) := rfl

theorem cascadeStep12 (cur : String) (rest vis : List String) (vals : String → Int)
    (acc : List Change) :
    cascadeStep 12 (cur :: rest, vis, vals, acc) =
      cascadeStep 11 (processDeps (dependentsMap cur) (rest, vis, vals, acc)) := rfl

/-- The floor invariant of the six-resource graph spelled out as its three
instances. -/
theorem floorInv_unfold (vals : String → Int) :
    FloorInv vals ↔
      (vals "iron" + (vals "coal" + 0) ≤ vals "steel" ∧
       vals "oil" + (vals "coal" + 0) ≤ vals "plastics" ∧
       vals "steel" + (vals "plastics" + 0) ≤ vals "consumer_goods") := by
  constructor
  · intro h
    exact ⟨h steelRes (by decide) (by decide), h plasticsRes (by decide) (by decide),
      h consumerGoodsRes (by decide) (by decide)⟩
  · rintro ⟨h1, h2, h3⟩ r hr hc
    simp only [rawResources, List.mem_cons, List.not_mem_nil, or_false] at hr
    rcases hr with rfl | rfl | rfl | rfl | rfl | rfl
    · exact absurd rfl hc
    · exact absurd rfl hc
    · exact absurd rfl hc
    · exact h1
    · exact h2
    · exact h3

/-- A name accepted by `resourceMap` is one of the six declared names. -/
theorem resourceFind_name_cases {name : String} {r : RawResource}
    (h : resourceFind name = some r) :
    name = "iron" ∨ name = "coal" ∨ name = "oil" ∨ name = "steel" ∨ name = "plastics" ∨
      name = "consumer_goods" := by
  have hmem := List.find?_some h
  have hin := List.mem_of_find?_eq_some h
  simp only [rawResources, List.mem_cons, List.not_mem_nil, or_false] at hin
  have hname : r.name = name := by simpa using hmem
  rcases hin with rfl | rfl | rfl | rfl | rfl | rfl <;>
    (cases hname;
     simp [ironRes_name, coalRes_name, oilRes_name, steelRes_name, plasticsRes_name,
       consumerGoodsRes_name])

/-- C4 witness: `inactive_id_effects` at a concrete one-contract state and an
absent id. -/
theorem inactive_id_effects_witness :
    onContractDecay false 1
        ⟨[{ value := 10, reward := 12, resources := [("iron", 2)], id := 7, label := "L",
            difficulty := 1, rewardRange := (1, 1.4), maxResources := none }], 50⟩
        initialState =
      (⟨[{ value := 10, reward := 12, resources := [("iron", 2)], id := 7, label := "L",
            difficulty := 1, rewardRange := (1, 1.4), maxResources := none }], 50⟩,
        initialState) ∧
    completeContract false 1
        ⟨[{ value := 10, reward := 12, resources := [("iron", 2)], id := 7, label := "L",
            difficulty := 1, rewardRange := (1, 1.4), maxResources := none }], 50⟩
        initialState =
      (⟨[{ value := 10, reward := 12, resources := [("iron", 2)], id := 7, label := "L",
            difficulty := 1, rewardRange := (1, 1.4), maxResources := none }], 50 * 1.1⟩,
        initialState) :=
  inactive_id_effects 1 _ initialState (by decide)

/-! ## Claim C1: the floor invariant is preserved by `setResourceValue`

One lemma per primary resource; each unfolds the concrete breadth-first
cascade of the fixed graph and discharges every branch by linear
arithmetic. -/

theorem step_iron (st : EngineState) (v : Int) (h : FloorInv st.values) :
    FloorInv (setResourceValue false "iron" v st).values := by
  rw [floorInv_unfold] at h ⊢
  obtain ⟨h1, h2, h3⟩ := h
  simp only [setResourceValue, setResourceValueSnap, resourceFind_iron,
    setResourceValueWithMin, computeMinTotal_iron]
  split_ifs <;>
    simp +decide only [cascadeStep16, cascadeStep15, cascadeStep14, cascadeStep13,
      cascadeStep12, cascadeStep_qnil, dependentsMap_iron, dependentsMap_coal, dependentsMap_oil,
      dependentsMap_steel, dependentsMap_plastics, dependentsMap_cg, processDeps,
      resourceFind_iron, resourceFind_coal, resourceFind_oil, resourceFind_steel,
      resourceFind_plastics, resourceFind_cg, computeMinTotal_iron, computeMinTotal_coal,
      computeMinTotal_oil, computeMinTotal_steel, computeMinTotal_plastics, computeMinTotal_cg,
      ironRes_name, coalRes_name, oilRes_name, steelRes_name, plasticsRes_name,
      consumerGoodsRes_name, upd_apply, List.mem_cons, List.not_mem_nil, List.nil_append,
      List.cons_append, List.append_nil] <;>
    (try split_ifs) <;>
    (try simp +decide only [cascadeStep16, cascadeStep15, cascadeStep14, cascadeStep13,
      cascadeStep12, cascadeStep_qnil, dependentsMap_iron, dependentsMap_coal, dependentsMap_oil,
      dependentsMap_steel, dependentsMap_plastics, dependentsMap_cg, processDeps,
      resourceFind_iron, resourceFind_coal, resourceFind_oil, resourceFind_steel,
      resourceFind_plastics, resourceFind_cg, computeMinTotal_iron, computeMinTotal_coal,
      computeMinTotal_oil, computeMinTotal_steel, computeMinTotal_plastics, computeMinTotal_cg,
      ironRes_name, coalRes_name, oilRes_name, steelRes_name, plasticsRes_name,
      consumerGoodsRes_name, upd_apply, List.mem_cons, List.not_mem_nil, List.nil_append,
      List.cons_append, List.append_nil]) <;>
    (try split_ifs) <;>
    (try simp +decide only [cascadeStep16, cascadeStep15, cascadeStep14, cascadeStep13,
      cascadeStep12, cascadeStep_qnil, dependentsMap_iron, dependentsMap_coal, dependentsMap_oil,
      dependentsMap_steel, dependentsMap_plastics, dependentsMap_cg, processDeps,
      resourceFind_iron, resourceFind_coal, resourceFind_oil, resourceFind_steel,
      resourceFind_plastics, resourceFind_cg, computeMinTotal_iron, computeMinTotal_coal,
      computeMinTotal_oil, computeMinTotal_steel, computeMinTotal_plastics, computeMinTotal_cg,
      ironRes_name, coalRes_name, oilRes_name, steelRes_name, plasticsRes_name,
      consumerGoodsRes_name, upd_apply, List.mem_cons, List.not_mem_nil, List.nil_append,
      List.cons_append, List.append_nil]) <;>
    (try split_ifs) <;>
    (try simp +decide only [cascadeStep16, cascadeStep15, cascadeStep14, cascadeStep13,
      cascadeStep12, cascadeStep_qnil, dependentsMap_iron, dependentsMap_coal, dependentsMap_oil,
      dependentsMap_steel, dependentsMap_plastics, dependentsMap_cg, processDeps,
      resourceFind_iron, resourceFind_coal, resourceFind_oil, resourceFind_steel,
      resourceFind_plastics, resourceFind_cg, computeMinTotal_iron, computeMinTotal_coal,
      computeMinTotal_oil, computeMinTotal_steel, computeMinTotal_plastics, computeMinTotal_cg,
      ironRes_name, coalRes_name, oilRes_name, steelRes_name, plasticsRes_name,
      consumerGoodsRes_name, upd_apply, List.mem_cons, List.not_mem_nil, List.nil_append,
      List.cons_append, List.append_nil]) <;>
    (try split_ifs) <;>
    (try simp +decide only [cascadeStep16, cascadeStep15, cascadeStep14, cascadeStep13,
      cascadeStep12, cascadeStep_qnil, dependentsMap_iron, dependentsMap_coal, dependentsMap_oil,
      dependentsMap_steel, dependentsMap_plastics, dependentsMap_cg, processDeps,
      resourceFind_iron, resourceFind_coal, resourceFind_oil, resourceFind_steel,
      resourceFind_plastics, resourceFind_cg, computeMinTotal_iron, computeMinTotal_coal,
      computeMinTotal_oil, computeMinTotal_steel, computeMinTotal_plastics, computeMinTotal_cg,
      ironRes_name, coalRes_name, oilRes_name, steelRes_name, plasticsRes_name,
      consumerGoodsRes_name, upd_apply, List.mem_cons, List.not_mem_nil, List.nil_append,
      List.cons_append, List.append_nil]) <;>
    (try split_ifs) <;>
    (try (exact False.elim (by assumption))) <;>
    (try (exact absurd trivial (by assumption))) <;>
    (try omega) <;>
    (try simp_all) <;>
    (try omega)

theorem step_coal (st : EngineState) (v : Int) (h : FloorInv st.values) :
    FloorInv (setResourceValue false "coal" v st).values := by
  rw [floorInv_unfold] at h ⊢
  obtain ⟨h1, h2, h3⟩ := h
  simp only [setResourceValue, setResourceValueSnap, resourceFind_coal,
    setResourceValueWithMin, computeMinTotal_coal]
  split_ifs <;>
    simp +decide only [cascadeStep16, cascadeStep15, cascadeStep14, cascadeStep13,
      cascadeStep12, cascadeStep_qnil, dependentsMap_iron, dependentsMap_coal, dependentsMap_oil,
      dependentsMap_steel, dependentsMap_plastics, dependentsMap_cg, processDeps,
      resourceFind_iron, resourceFind_coal, resourceFind_oil, resourceFind_steel,
      resourceFind_plastics, resourceFind_cg, computeMinTotal_iron, computeMinTotal_coal,
      computeMinTotal_oil, computeMinTotal_steel, computeMinTotal_plastics, computeMinTotal_cg,
      ironRes_name, coalRes_name, oilRes_name, steelRes_name, plasticsRes_name,
      consumerGoodsRes_name, upd_apply, List.mem_cons, List.not_mem_nil, List.nil_append,
      List.cons_append, List.append_nil] <;>
    (try split_ifs) <;>
    (try simp +decide only [cascadeStep16, cascadeStep15, cascadeStep14, cascadeStep13,
      cascadeStep12, cascadeStep_qnil, dependentsMap_iron, dependentsMap_coal, dependentsMap_oil,
      dependentsMap_steel, dependentsMap_plastics, dependentsMap_cg, processDeps,
      resourceFind_iron, resourceFind_coal, resourceFind_oil, resourceFind_steel,
      resourceFind_plastics, resourceFind_cg, computeMinTotal_iron, computeMinTotal_coal,
      computeMinTotal_oil, computeMinTotal_steel, computeMinTotal_plastics, computeMinTotal_cg,
      ironRes_name, coalRes_name, oilRes_name, steelRes_name, plasticsRes_name,
      consumerGoodsRes_name, upd_apply, List.mem_cons, List.not_mem_nil, List.nil_append,
      List.cons_append, List.append_nil]) <;>
    (try split_ifs) <;>
    (try simp +decide only [cascadeStep16, cascadeStep15, cascadeStep14, cascadeStep13,
      cascadeStep12, cascadeStep_qnil, dependentsMap_iron, dependentsMap_coal, dependentsMap_oil,
      dependentsMap_steel, dependentsMap_plastics, dependentsMap_cg, processDeps,
      resourceFind_iron, resourceFind_coal, resourceFind_oil, resourceFind_steel,
      resourceFind_plastics, resourceFind_cg, computeMinTotal_iron, computeMinTotal_coal,
      computeMinTotal_oil, computeMinTotal_steel, computeMinTotal_plastics, computeMinTotal_cg,
      ironRes_name, coalRes_name, oilRes_name, steelRes_name, plasticsRes_name,
      consumerGoodsRes_name, upd_apply, List.mem_cons, List.not_mem_nil, List.nil_append,
      List.cons_append, List.append_nil]) <;>
    (try split_ifs) <;>
    (try simp +decide only [cascadeStep16, cascadeStep15, cascadeStep14, cascadeStep13,
      cascadeStep12, cascadeStep_qnil, dependentsMap_iron, dependentsMap_coal, dependentsMap_oil,
      dependentsMap_steel, dependentsMap_plastics, dependentsMap_cg, processDeps,
      resourceFind_iron, resourceFind_coal, resourceFind_oil, resourceFind_steel,
      resourceFind_plastics, resourceFind_cg, computeMinTotal_iron, computeMinTotal_coal,
      computeMinTotal_oil, computeMinTotal_steel, computeMinTotal_plastics, computeMinTotal_cg,
      ironRes_name, coalRes_name, oilRes_name, steelRes_name, plasticsRes_name,
      consumerGoodsRes_name, upd_apply, List.mem_cons, List.not_mem_nil, List.nil_append,
      List.cons_append, List.append_nil]) <;>
    (try split_ifs) <;>
    (try simp +decide only [cascadeStep16, cascadeStep15, cascadeStep14, cascadeStep13,
      cascadeStep12, cascadeStep_qnil, dependentsMap_iron, dependentsMap_coal, dependentsMap_oil,
      dependentsMap_steel, dependentsMap_plastics, dependentsMap_cg, processDeps,
      resourceFind_iron, resourceFind_coal, resourceFind_oil, resourceFind_steel,
      resourceFind_plastics, resourceFind_cg, computeMinTotal_iron, computeMinTotal_coal,
      computeMinTotal_oil, computeMinTotal_steel, computeMinTotal_plastics, computeMinTotal_cg,
      ironRes_name, coalRes_name, oilRes_name, steelRes_name, plasticsRes_name,
      consumerGoodsRes_name, upd_apply, List.mem_cons, List.not_mem_nil, List.nil_append,
      List.cons_append, List.append_nil]) <;>
    (try split_ifs) <;>
    (try (exact False.elim (by assumption))) <;>
    (try (exact absurd trivial (by assumption))) <;>
    (try omega) <;>
    (try simp_all) <;>
    (try omega)

theorem step_oil (st : EngineState) (v : Int) (h : FloorInv st.values) :
    FloorInv (setResourceValue false "oil" v st).values := by
  rw [floorInv_unfold] at h ⊢
  obtain ⟨h1, h2, h3⟩ := h
  simp only [setResourceValue, setResourceValueSnap, resourceFind_oil,
    setResourceValueWithMin, computeMinTotal_oil]
  split_ifs <;>
    simp +decide only [cascadeStep16, cascadeStep15, cascadeStep14, cascadeStep13,
      cascadeStep12, cascadeStep_qnil, dependentsMap_iron, dependentsMap_coal, dependentsMap_oil,
      dependentsMap_steel, dependentsMap_plastics, dependentsMap_cg, processDeps,
      resourceFind_iron, resourceFind_coal, resourceFind_oil, resourceFind_steel,
      resourceFind_plastics, resourceFind_cg, computeMinTotal_iron, computeMinTotal_coal,
      computeMinTotal_oil, computeMinTotal_steel, computeMinTotal_plastics, computeMinTotal_cg,
      ironRes_name, coalRes_name, oilRes_name, steelRes_name, plasticsRes_name,
      consumerGoodsRes_name, upd_apply, List.mem_cons, List.not_mem_nil, List.nil_append,
      List.cons_append, List.append_nil] <;>
    (try split_ifs) <;>
    (try simp +decide only [cascadeStep16, cascadeStep15, cascadeStep14, cascadeStep13,
      cascadeStep12, cascadeStep_qnil, dependentsMap_iron, dependentsMap_coal, dependentsMap_oil,
      dependentsMap_steel, dependentsMap_plastics, dependentsMap_cg, processDeps,
      resourceFind_iron, resourceFind_coal, resourceFind_oil, resourceFind_steel,
      resourceFind_plastics, resourceFind_cg, computeMinTotal_iron, computeMinTotal_coal,
      computeMinTotal_oil, computeMinTotal_steel, computeMinTotal_plastics, computeMinTotal_cg,
      ironRes_name, coalRes_name, oilRes_name, steelRes_name, plasticsRes_name,
      consumerGoodsRes_name, upd_apply, List.mem_cons, List.not_mem_nil, List.nil_append,
      List.cons_append, List.append_nil]) <;>
    (try split_ifs) <;>
    (try simp +decide only [cascadeStep16, cascadeStep15, cascadeStep14, cascadeStep13,
      cascadeStep12, cascadeStep_qnil, dependentsMap_iron, dependentsMap_coal, dependentsMap_oil,
      dependentsMap_steel, dependentsMap_plastics, dependentsMap_cg, processDeps,
      resourceFind_iron, resourceFind_coal, resourceFind_oil, resourceFind_steel,
      resourceFind_plastics, resourceFind_cg, computeMinTotal_iron, computeMinTotal_coal,
      computeMinTotal_oil, computeMinTotal_steel, computeMinTotal_plastics, computeMinTotal_cg,
      ironRes_name, coalRes_name, oilRes_name, steelRes_name, plasticsRes_name,
      consumerGoodsRes_name, upd_apply, List.mem_cons, List.not_mem_nil, List.nil_append,
      List.cons_append, List.append_nil]) <;>
    (try split_ifs) <;>
    (try simp +decide only [cascadeStep16, cascadeStep15, cascadeStep14, cascadeStep13,
      cascadeStep12, cascadeStep_qnil, dependentsMap_iron, dependentsMap_coal, dependentsMap_oil,
      dependentsMap_steel, dependentsMap_plastics, dependentsMap_cg, processDeps,
      resourceFind_iron, resourceFind_coal, resourceFind_oil, resourceFind_steel,
      resourceFind_plastics, resourceFind_cg, computeMinTotal_iron, computeMinTotal_coal,
      computeMinTotal_oil, computeMinTotal_steel, computeMinTotal_plastics, computeMinTotal_cg,
      ironRes_name, coalRes_name, oilRes_name, steelRes_name, plasticsRes_name,
      consumerGoodsRes_name, upd_apply, List.mem_cons, List.not_mem_nil, List.nil_append,
      List.cons_append, List.append_nil]) <;>
    (try split_ifs) <;>
    (try simp +decide only [cascadeStep16, cascadeStep15, cascadeStep14, cascadeStep13,
      cascadeStep12, cascadeStep_qnil, dependentsMap_iron, dependentsMap_coal, dependentsMap_oil,
      dependentsMap_steel, dependentsMap_plastics, dependentsMap_cg, processDeps,
      resourceFind_iron, resourceFind_coal, resourceFind_oil, resourceFind_steel,
      resourceFind_plastics, resourceFind_cg, computeMinTotal_iron, computeMinTotal_coal,
      computeMinTotal_oil, computeMinTotal_steel, computeMinTotal_plastics, computeMinTotal_cg,
      ironRes_name, coalRes_name, oilRes_name, steelRes_name, plasticsRes_name,
      consumerGoodsRes_name, upd_apply, List.mem_cons, List.not_mem_nil, List.nil_append,
      List.cons_append, List.append_nil]) <;>
    (try split_ifs) <;>
    (try (exact False.elim (by assumption))) <;>
    (try (exact absurd trivial (by assumption))) <;>
    (try omega) <;>
    (try simp_all) <;>
    (try omega)

theorem step_steel (st : EngineState) (v : Int) (h : FloorInv st.values) :
    FloorInv (setResourceValue false "steel" v st).values := by
  rw [floorInv_unfold] at h ⊢
  obtain ⟨h1, h2, h3⟩ := h
  simp only [setResourceValue, setResourceValueSnap, resourceFind_steel,
    setResourceValueWithMin, computeMinTotal_steel]
  split_ifs <;>
    simp +decide only [cascadeStep16, cascadeStep15, cascadeStep14, cascadeStep13,
      cascadeStep12, cascadeStep_qnil, dependentsMap_iron, dependentsMap_coal, dependentsMap_oil,
      dependentsMap_steel, dependentsMap_plastics, dependentsMap_cg, processDeps,
      resourceFind_iron, resourceFind_coal, resourceFind_oil, resourceFind_steel,
      resourceFind_plastics, resourceFind_cg, computeMinTotal_iron, computeMinTotal_coal,
      computeMinTotal_oil, computeMinTotal_steel, computeMinTotal_plastics, computeMinTotal_cg,
      ironRes_name, coalRes_name, oilRes_name, steelRes_name, plasticsRes_name,
      consumerGoodsRes_name, upd_apply, List.mem_cons, List.not_mem_nil, List.nil_append,
      List.cons_append, List.append_nil] <;>
    (try split_ifs) <;>
    (try simp +decide only [cascadeStep16, cascadeStep15, cascadeStep14, cascadeStep13,
      cascadeStep12, cascadeStep_qnil, dependentsMap_iron, dependentsMap_coal, dependentsMap_oil,
      dependentsMap_steel, dependentsMap_plastics, dependentsMap_cg, processDeps,
      resourceFind_iron, resourceFind_coal, resourceFind_oil, resourceFind_steel,
      resourceFind_plastics, resourceFind_cg, computeMinTotal_iron, computeMinTotal_coal,
      computeMinTotal_oil, computeMinTotal_steel, computeMinTotal_plastics, computeMinTotal_cg,
      ironRes_name, coalRes_name, oilRes_name, steelRes_name, plasticsRes_name,
      consumerGoodsRes_name, upd_apply, List.mem_cons, List.not_mem_nil, List.nil_append,
      List.cons_append, List.append_nil]) <;>
    (try split_ifs) <;>
    (try simp +decide only [cascadeStep16, cascadeStep15, cascadeStep14, cascadeStep13,
      cascadeStep12, cascadeStep_qnil, dependentsMap_iron, dependentsMap_coal, dependentsMap_oil,
      dependentsMap_steel, dependentsMap_plastics, dependentsMap_cg, processDeps,
      resourceFind_iron, resourceFind_coal, resourceFind_oil, resourceFind_steel,
      resourceFind_plastics, resourceFind_cg, computeMinTotal_iron, computeMinTotal_coal,
      computeMinTotal_oil, computeMinTotal_steel, computeMinTotal_plastics, computeMinTotal_cg,
      ironRes_name, coalRes_name, oilRes_name, steelRes_name, plasticsRes_name,
      consumerGoodsRes_name, upd_apply, List.mem_cons, List.not_mem_nil, List.nil_append,
      List.cons_append, List.append_nil]) <;>
    (try split_ifs) <;>
    (try simp +decide only [cascadeStep16, cascadeStep15, cascadeStep14, cascadeStep13,
      cascadeStep12, cascadeStep_qnil, dependentsMap_iron, dependentsMap_coal, dependentsMap_oil,
      dependentsMap_steel, dependentsMap_plastics, dependentsMap_cg, processDeps,
      resourceFind_iron, resourceFind_coal, resourceFind_oil, resourceFind_steel,
      resourceFind_plastics, resourceFind_cg, computeMinTotal_iron, computeMinTotal_coal,
      computeMinTotal_oil, computeMinTotal_steel, computeMinTotal_plastics, computeMinTotal_cg,
      ironRes_name, coalRes_name, oilRes_name, steelRes_name, plasticsRes_name,
      consumerGoodsRes_name, upd_apply, List.mem_cons, List.not_mem_nil, List.nil_append,
      List.cons_append, List.append_nil]) <;>
    (try split_ifs) <;>
    (try simp +decide only [cascadeStep16, cascadeStep15, cascadeStep14, cascadeStep13,
      cascadeStep12, cascadeStep_qnil, dependentsMap_iron, dependentsMap_coal, dependentsMap_oil,
      dependentsMap_steel, dependentsMap_plastics, dependentsMap_cg, processDeps,
      resourceFind_iron, resourceFind_coal, resourceFind_oil, resourceFind_steel,
      resourceFind_plastics, resourceFind_cg, computeMinTotal_iron, computeMinTotal_coal,
      computeMinTotal_oil, computeMinTotal_steel, computeMinTotal_plastics, computeMinTotal_cg,
      ironRes_name, coalRes_name, oilRes_name, steelRes_name, plasticsRes_name,
      consumerGoodsRes_name, upd_apply, List.mem_cons, List.not_mem_nil, List.nil_append,
      List.cons_append, List.append_nil]) <;>
    (try split_ifs) <;>
    (try (exact False.elim (by assumption))) <;>
    (try (exact absurd trivial (by assumption))) <;>
    (try omega) <;>
    (try simp_all) <;>
    (try omega)

theorem step_plastics (st : EngineState) (v : Int) (h : FloorInv st.values) :
    FloorInv (setResourceValue false "plastics" v st).values := by
  rw [floorInv_unfold] at h ⊢
  obtain ⟨h1, h2, h3⟩ := h
  simp only [setResourceValue, setResourceValueSnap, resourceFind_plastics,
    setResourceValueWithMin, computeMinTotal_plastics]
  split_ifs <;>
    simp +decide only [cascadeStep16, cascadeStep15, cascadeStep14, cascadeStep13,
      cascadeStep12, cascadeStep_qnil, dependentsMap_iron, dependentsMap_coal, dependentsMap_oil,
      dependentsMap_steel, dependentsMap_plastics, dependentsMap_cg, processDeps,
      resourceFind_iron, resourceFind_coal, resourceFind_oil, resourceFind_steel,
      resourceFind_plastics, resourceFind_cg, computeMinTotal_iron, computeMinTotal_coal,
      computeMinTotal_oil, computeMinTotal_steel, computeMinTotal_plastics, computeMinTotal_cg,
      ironRes_name, coalRes_name, oilRes_name, steelRes_name, plasticsRes_name,
      consumerGoodsRes_name, upd_apply, List.mem_cons, List.not_mem_nil, List.nil_append,
      List.cons_append, List.append_nil] <;>
    (try split_ifs) <;>
    (try simp +decide only [cascadeStep16, cascadeStep15, cascadeStep14, cascadeStep13,
      cascadeStep12, cascadeStep_qnil, dependentsMap_iron, dependentsMap_coal, dependentsMap_oil,
      dependentsMap_steel, dependentsMap_plastics, dependentsMap_cg, processDeps,
      resourceFind_iron, resourceFind_coal, resourceFind_oil, resourceFind_steel,
      resourceFind_plastics, resourceFind_cg, computeMinTotal_iron, computeMinTotal_coal,
      computeMinTotal_oil, computeMinTotal_steel, computeMinTotal_plastics, computeMinTotal_cg,
      ironRes_name, coalRes_name, oilRes_name, steelRes_name, plasticsRes_name,
      consumerGoodsRes_name, upd_apply, List.mem_cons, List.not_mem_nil, List.nil_append,
      List.cons_append, List.append_nil]) <;>
    (try split_ifs) <;>
    (try simp +decide only [cascadeStep16, cascadeStep15, cascadeStep14, cascadeStep13,
      cascadeStep12, cascadeStep_qnil, dependentsMap_iron, dependentsMap_coal, dependentsMap_oil,
      dependentsMap_steel, dependentsMap_plastics, dependentsMap_cg, processDeps,
      resourceFind_iron, resourceFind_coal, resourceFind_oil, resourceFind_steel,
      resourceFind_plastics, resourceFind_cg, computeMinTotal_iron, computeMinTotal_coal,
      computeMinTotal_oil, computeMinTotal_steel, computeMinTotal_plastics, computeMinTotal_cg,
      ironRes_name, coalRes_name, oilRes_name, steelRes_name, plasticsRes_name,
      consumerGoodsRes_name, upd_apply, List.mem_cons, List.not_mem_nil, List.nil_append,
      List.cons_append, List.append_nil]) <;>
    (try split_ifs) <;>
    (try simp +decide only [cascadeStep16, cascadeStep15, cascadeStep14, cascadeStep13,
      cascadeStep12, cascadeStep_qnil, dependentsMap_iron, dependentsMap_coal, dependentsMap_oil,
      dependentsMap_steel, dependentsMap_plastics, dependentsMap_cg, processDeps,
      resourceFind_iron, resourceFind_coal, resourceFind_oil, resourceFind_steel,
      resourceFind_plastics, resourceFind_cg, computeMinTotal_iron, computeMinTotal_coal,
      computeMinTotal_oil, computeMinTotal_steel, computeMinTotal_plastics, computeMinTotal_cg,
      ironRes_name, coalRes_name, oilRes_name, steelRes_name, plasticsRes_name,
      consumerGoodsRes_name, upd_apply, List.mem_cons, List.not_mem_nil, List.nil_append,
      List.cons_append, List.append_nil]) <;>
    (try split_ifs) <;>
    (try simp +decide only [cascadeStep16, cascadeStep15, cascadeStep14, cascadeStep13,
      cascadeStep12, cascadeStep_qnil, dependentsMap_iron, dependentsMap_coal, dependentsMap_oil,
      dependentsMap_steel, dependentsMap_plastics, dependentsMap_cg, processDeps,
      resourceFind_iron, resourceFind_coal, resourceFind_oil, resourceFind_steel,
      resourceFind_plastics, resourceFind_cg, computeMinTotal_iron, computeMinTotal_coal,
      computeMinTotal_oil, computeMinTotal_steel, computeMinTotal_plastics, computeMinTotal_cg,
      ironRes_name, coalRes_name, oilRes_name, steelRes_name, plasticsRes_name,
      consumerGoodsRes_name, upd_apply, List.mem_cons, List.not_mem_nil, List.nil_append,
      List.cons_append, List.append_nil]) <;>
    (try split_ifs) <;>
    (try (exact False.elim (by assumption))) <;>
    (try (exact absurd trivial (by assumption))) <;>
    (try omega) <;>
    (try simp_all) <;>
    (try omega)

theorem step_cg (st : EngineState) (v : Int) (h : FloorInv st.values) :
    FloorInv (setResourceValue false "consumer_goods" v st).values := by
  rw [floorInv_unfold] at h ⊢
  obtain ⟨h1, h2, h3⟩ := h
  simp only [setResourceValue, setResourceValueSnap, resourceFind_cg,
    setResourceValueWithMin, computeMinTotal_cg]
  split_ifs <;>
    simp +decide only [cascadeStep16, cascadeStep15, cascadeStep14, cascadeStep13,
      cascadeStep12, cascadeStep_qnil, dependentsMap_iron, dependentsMap_coal, dependentsMap_oil,
      dependentsMap_steel, dependentsMap_plastics, dependentsMap_cg, processDeps,
      resourceFind_iron, resourceFind_coal, resourceFind_oil, resourceFind_steel,
      resourceFind_plastics, resourceFind_cg, computeMinTotal_iron, computeMinTotal_coal,
      computeMinTotal_oil, computeMinTotal_steel, computeMinTotal_plastics, computeMinTotal_cg,
      ironRes_name, coalRes_name, oilRes_name, steelRes_name, plasticsRes_name,
      consumerGoodsRes_name, upd_apply, List.mem_cons, List.not_mem_nil, List.nil_append,
      List.cons_append, List.append_nil] <;>
    (try split_ifs) <;>
    (try simp +decide only [cascadeStep16, cascadeStep15, cascadeStep14, cascadeStep13,
      cascadeStep12, cascadeStep_qnil, dependentsMap_iron, dependentsMap_coal, dependentsMap_oil,
      dependentsMap_steel, dependentsMap_plastics, dependentsMap_cg, processDeps,
      resourceFind_iron, resourceFind_coal, resourceFind_oil, resourceFind_steel,
      resourceFind_plastics, resourceFind_cg, computeMinTotal_iron, computeMinTotal_coal,
      computeMinTotal_oil, computeMinTotal_steel, computeMinTotal_plastics, computeMinTotal_cg,
      ironRes_name, coalRes_name, oilRes_name, steelRes_name, plasticsRes_name,
      consumerGoodsRes_name, upd_apply, List.mem_cons, List.not_mem_nil, List.nil_append,
      List.cons_append, List.append_nil]) <;>
    (try split_ifs) <;>
    (try simp +decide only [cascadeStep16, cascadeStep15, cascadeStep14, cascadeStep13,
      cascadeStep12, cascadeStep_qnil, dependentsMap_iron, dependentsMap_coal, dependentsMap_oil,
      dependentsMap_steel, dependentsMap_plastics, dependentsMap_cg, processDeps,
      resourceFind_iron, resourceFind_coal, resourceFind_oil, resourceFind_steel,
      resourceFind_plastics, resourceFind_cg, computeMinTotal_iron, computeMinTotal_coal,
      computeMinTotal_oil, computeMinTotal_steel, computeMinTotal_plastics, computeMinTotal_cg,
      ironRes_name, coalRes_name, oilRes_name, steelRes_name, plasticsRes_name,
      consumerGoodsRes_name, upd_apply, List.mem_cons, List.not_mem_nil, List.nil_append,
      List.cons_append, List.append_nil]) <;>
    (try split_ifs) <;>
    (try simp +decide only [cascadeStep16, cascadeStep15, cascadeStep14, cascadeStep13,
      cascadeStep12, cascadeStep_qnil, dependentsMap_iron, dependentsMap_coal, dependentsMap_oil,
      dependentsMap_steel, dependentsMap_plastics, dependentsMap_cg, processDeps,
      resourceFind_iron, resourceFind_coal, resourceFind_oil, resourceFind_steel,
      resourceFind_plastics, resourceFind_cg, computeMinTotal_iron, computeMinTotal_coal,
      computeMinTotal_oil, computeMinTotal_steel, computeMinTotal_plastics, computeMinTotal_cg,
      ironRes_name, coalRes_name, oilRes_name, steelRes_name, plasticsRes_name,
      consumerGoodsRes_name, upd_apply, List.mem_cons, List.not_mem_nil, List.nil_append,
      List.cons_append, List.append_nil]) <;>
    (try split_ifs) <;>
    (try simp +decide only [cascadeStep16, cascadeStep15, cascadeStep14, cascadeStep13,
      cascadeStep12, cascadeStep_qnil, dependentsMap_iron, dependentsMap_coal, dependentsMap_oil,
      dependentsMap_steel, dependentsMap_plastics, dependentsMap_cg, processDeps,
      resourceFind_iron, resourceFind_coal, resourceFind_oil, resourceFind_steel,
      resourceFind_plastics, resourceFind_cg, computeMinTotal_iron, computeMinTotal_coal,
      computeMinTotal_oil, computeMinTotal_steel, computeMinTotal_plastics, computeMinTotal_cg,
      ironRes_name, coalRes_name, oilRes_name, steelRes_name, plasticsRes_name,
      consumerGoodsRes_name, upd_apply, List.mem_cons, List.not_mem_nil, List.nil_append,
      List.cons_append, List.append_nil]) <;>
    (try split_ifs) <;>
    (try (exact False.elim (by assumption))) <;>
    (try (exact absurd trivial (by assumption))) <;>
    (try omega) <;>
    (try simp_all) <;>
    (try omega)

/-- C1: for any state whose values satisfy the floor invariant, any
`setResourceValue` call with minimum enforcement active preserves it. -/
theorem setResourceValue_preserves_floorInv (name : String) (v : Int) (st : EngineState)
    (h : FloorInv st.values) : FloorInv (setResourceValue false name v st).values := by
  cases hr : resourceFind name with
  | none =>
    unfold setResourceValue setResourceValueSnap
    rw [hr]
    exact h
  | some r =>
    rcases resourceFind_name_cases hr with rfl | rfl | rfl | rfl | rfl | rfl
    · exact step_iron st v h
    · exact step_coal st v h
    · exact step_oil st v h
    · exact step_steel st v h
    · exact step_plastics st v h
    · exact step_cg st v h

/-- C1: the floor invariant holds after every call of a `setResourceValue`
sequence executed with `ignoreMinimum` off, starting from any state that
satisfies it (the initial snapshot does, see the witness); intermediate
states are `applyCalls` of prefixes, so this is exactly "immediately after
each call returns". -/
theorem floor_invariant_after_calls (st : EngineState) (calls : List (String × Int))
    (h : FloorInv st.values) : FloorInv (applyCalls calls st).values := by
  induction calls generalizing st with
  | nil => exact h
  | cons c cs ih =>
    exact ih (setResourceValue false c.1 c.2 st)
      (setResourceValue_preserves_floorInv c.1 c.2 st h)

/-- C1 witness: the initial snapshot satisfies the invariant, and it still
holds after the concrete call sequence coal:=50 then steel:=80. -/
theorem floor_invariant_after_calls_witness :
    FloorInv initialState.values ∧
      FloorInv (applyCalls [("coal", 50), ("steel", 80)] initialState).values :=
  ⟨by decide, floor_invariant_after_calls initialState [("coal", 50), ("steel", 80)] (by decide)⟩

/-! ## Primary-value lemmas: the cascade never rewrites the primary resource
(its dependents are strictly downstream in the acyclic graph), so the value
written by `setResourceValueWithMin` at `name` is exactly the clamped
`nextValue`.  Used by the C3 analysis. -/

theorem prim_iron (st : EngineState) (minv v : Int) :
    (setResourceValueWithMin false minv "iron" v st).values "iron" =
      (if v < minv then minv else v) := by
  simp only [setResourceValueWithMin]
  split_ifs <;>
    simp +decide only [cascadeStep16, cascadeStep15, cascadeStep14, cascadeStep13,
      cascadeStep12, cascadeStep_qnil, dependentsMap_iron, dependentsMap_coal, dependentsMap_oil,
      dependentsMap_steel, dependentsMap_plastics, dependentsMap_cg, processDeps,
      resourceFind_iron, resourceFind_coal, resourceFind_oil, resourceFind_steel,
      resourceFind_plastics, resourceFind_cg, computeMinTotal_iron, computeMinTotal_coal,
      computeMinTotal_oil, computeMinTotal_steel, computeMinTotal_plastics, computeMinTotal_cg,
      ironRes_name, coalRes_name, oilRes_name, steelRes_name, plasticsRes_name,
      consumerGoodsRes_name, upd_apply, List.mem_cons, List.not_mem_nil, List.nil_append,
      List.cons_append, List.append_nil] <;>
    (try split_ifs) <;>
    (try simp +decide only [cascadeStep16, cascadeStep15, cascadeStep14, cascadeStep13,
      cascadeStep12, cascadeStep_qnil, dependentsMap_iron, dependentsMap_coal, dependentsMap_oil,
      dependentsMap_steel, dependentsMap_plastics, dependentsMap_cg, processDeps,
      resourceFind_iron, resourceFind_coal, resourceFind_oil, resourceFind_steel,
      resourceFind_plastics, resourceFind_cg, computeMinTotal_iron, computeMinTotal_coal,
      computeMinTotal_oil, computeMinTotal_steel, computeMinTotal_plastics, computeMinTotal_cg,
      ironRes_name, coalRes_name, oilRes_name, steelRes_name, plasticsRes_name,
      consumerGoodsRes_name, upd_apply, List.mem_cons, List.not_mem_nil, List.nil_append,
      List.cons_append, List.append_nil]) <;>
    (try split_ifs) <;>
    (try simp +decide only [cascadeStep16, cascadeStep15, cascadeStep14, cascadeStep13,
      cascadeStep12, cascadeStep_qnil, dependentsMap_iron, dependentsMap_coal, dependentsMap_oil,
      dependentsMap_steel, dependentsMap_plastics, dependentsMap_cg, processDeps,
      resourceFind_iron, resourceFind_coal, resourceFind_oil, resourceFind_steel,
      resourceFind_plastics, resourceFind_cg, computeMinTotal_iron, computeMinTotal_coal,
      computeMinTotal_oil, computeMinTotal_steel, computeMinTotal_plastics, computeMinTotal_cg,
      ironRes_name, coalRes_name, oilRes_name, steelRes_name, plasticsRes_name,
      consumerGoodsRes_name, upd_apply, List.mem_cons, List.not_mem_nil, List.nil_append,
      List.cons_append, List.append_nil]) <;>
    (try split_ifs) <;>
    (try simp +decide only [cascadeStep16, cascadeStep15, cascadeStep14, cascadeStep13,
      cascadeStep12, cascadeStep_qnil, dependentsMap_iron, dependentsMap_coal, dependentsMap_oil,
      dependentsMap_steel, dependentsMap_plastics, dependentsMap_cg, processDeps,
      resourceFind_iron, resourceFind_coal, resourceFind_oil, resourceFind_steel,
      resourceFind_plastics, resourceFind_cg, computeMinTotal_iron, computeMinTotal_coal,
      computeMinTotal_oil, computeMinTotal_steel, computeMinTotal_plastics, computeMinTotal_cg,
      ironRes_name, coalRes_name, oilRes_name, steelRes_name, plasticsRes_name,
      consumerGoodsRes_name, upd_apply, List.mem_cons, List.not_mem_nil, List.nil_append,
      List.cons_append, List.append_nil]) <;>
    (try split_ifs) <;>
    (try simp +decide only [cascadeStep16, cascadeStep15, cascadeStep14, cascadeStep13,
      cascadeStep12, cascadeStep_qnil, dependentsMap_iron, dependentsMap_coal, dependentsMap_oil,
      dependentsMap_steel, dependentsMap_plastics, dependentsMap_cg, processDeps,
      resourceFind_iron, resourceFind_coal, resourceFind_oil, resourceFind_steel,
      resourceFind_plastics, resourceFind_cg, computeMinTotal_iron, computeMinTotal_coal,
      computeMinTotal_oil, computeMinTotal_steel, computeMinTotal_plastics, computeMinTotal_cg,
      ironRes_name, coalRes_name, oilRes_name, steelRes_name, plasticsRes_name,
      consumerGoodsRes_name, upd_apply, List.mem_cons, List.not_mem_nil, List.nil_append,
      List.cons_append, List.append_nil]) <;>
    (try split_ifs) <;>
    (try (exact False.elim (by assumption))) <;>
    (try (exact absurd trivial (by assumption))) <;>
    (try omega) <;>
    (try simp_all) <;>
    (try omega)

theorem prim_coal (st : EngineState) (minv v : Int) :
    (setResourceValueWithMin false minv "coal" v st).values "coal" =
      (if v < minv then minv else v) := by
  simp only [setResourceValueWithMin]
  split_ifs <;>
    simp +decide only [cascadeStep16, cascadeStep15, cascadeStep14, cascadeStep13,
      cascadeStep12, cascadeStep_qnil, dependentsMap_iron, dependentsMap_coal, dependentsMap_oil,
      dependentsMap_steel, dependentsMap_plastics, dependentsMap_cg, processDeps,
      resourceFind_iron, resourceFind_coal, resourceFind_oil, resourceFind_steel,
      resourceFind_plastics, resourceFind_cg, computeMinTotal_iron, computeMinTotal_coal,
      computeMinTotal_oil, computeMinTotal_steel, computeMinTotal_plastics, computeMinTotal_cg,
      ironRes_name, coalRes_name, oilRes_name, steelRes_name, plasticsRes_name,
      consumerGoodsRes_name, upd_apply, List.mem_cons, List.not_mem_nil, List.nil_append,
      List.cons_append, List.append_nil] <;>
    (try split_ifs) <;>
    (try simp +decide only [cascadeStep16, cascadeStep15, cascadeStep14, cascadeStep13,
      cascadeStep12, cascadeStep_qnil, dependentsMap_iron, dependentsMap_coal, dependentsMap_oil,
      dependentsMap_steel, dependentsMap_plastics, dependentsMap_cg, processDeps,
      resourceFind_iron, resourceFind_coal, resourceFind_oil, resourceFind_steel,
      resourceFind_plastics, resourceFind_cg, computeMinTotal_iron, computeMinTotal_coal,
      computeMinTotal_oil, computeMinTotal_steel, computeMinTotal_plastics, computeMinTotal_cg,
      ironRes_name, coalRes_name, oilRes_name, steelRes_name, plasticsRes_name,
      consumerGoodsRes_name, upd_apply, List.mem_cons, List.not_mem_nil, List.nil_append,
      List.cons_append, List.append_nil]) <;>
    (try split_ifs) <;>
    (try simp +decide only [cascadeStep16, cascadeStep15, cascadeStep14, cascadeStep13,
      cascadeStep12, cascadeStep_qnil, dependentsMap_iron, dependentsMap_coal, dependentsMap_oil,
      dependentsMap_steel, dependentsMap_plastics, dependentsMap_cg, processDeps,
      resourceFind_iron, resourceFind_coal, resourceFind_oil, resourceFind_steel,
      resourceFind_plastics, resourceFind_cg, computeMinTotal_iron, computeMinTotal_coal,
      computeMinTotal_oil, computeMinTotal_steel, computeMinTotal_plastics, computeMinTotal_cg,
      ironRes_name, coalRes_name, oilRes_name, steelRes_name, plasticsRes_name,
      consumerGoodsRes_name, upd_apply, List.mem_cons, List.not_mem_nil, List.nil_append,
      List.cons_append, List.append_nil]) <;>
    (try split_ifs) <;>
    (try simp +decide only [cascadeStep16, cascadeStep15, cascadeStep14, cascadeStep13,
      cascadeStep12, cascadeStep_qnil, dependentsMap_iron, dependentsMap_coal, dependentsMap_oil,
      dependentsMap_steel, dependentsMap_plastics, dependentsMap_cg, processDeps,
      resourceFind_iron, resourceFind_coal, resourceFind_oil, resourceFind_steel,
      resourceFind_plastics, resourceFind_cg, computeMinTotal_iron, computeMinTotal_coal,
      computeMinTotal_oil, computeMinTotal_steel, computeMinTotal_plastics, computeMinTotal_cg,
      ironRes_name, coalRes_name, oilRes_name, steelRes_name, plasticsRes_name,
      consumerGoodsRes_name, upd_apply, List.mem_cons, List.not_mem_nil, List.nil_append,
      List.cons_append, List.append_nil]) <;>
    (try split_ifs) <;>
    (try simp +decide only [cascadeStep16, cascadeStep15, cascadeStep14, cascadeStep13,
      cascadeStep12, cascadeStep_qnil, dependentsMap_iron, dependentsMap_coal, dependentsMap_oil,
      dependentsMap_steel, dependentsMap_plastics, dependentsMap_cg, processDeps,
      resourceFind_iron, resourceFind_coal, resourceFind_oil, resourceFind_steel,
      resourceFind_plastics, resourceFind_cg, computeMinTotal_iron, computeMinTotal_coal,
      computeMinTotal_oil, computeMinTotal_steel, computeMinTotal_plastics, computeMinTotal_cg,
      ironRes_name, coalRes_name, oilRes_name, steelRes_name, plasticsRes_name,
      consumerGoodsRes_name, upd_apply, List.mem_cons, List.not_mem_nil, List.nil_append,
      List.cons_append, List.append_nil]) <;>
    (try split_ifs) <;>
    (try (exact False.elim (by assumption))) <;>
    (try (exact absurd trivial (by assumption))) <;>
    (try omega) <;>
    (try simp_all) <;>
    (try omega)

theorem prim_oil (st : EngineState) (minv v : Int) :
    (setResourceValueWithMin false minv "oil" v st).values "oil" =
      (if v < minv then minv else v) := by
  simp only [setResourceValueWithMin]
  split_ifs <;>
    simp +decide only [cascadeStep16, cascadeStep15, cascadeStep14, cascadeStep13,
      cascadeStep12, cascadeStep_qnil, dependentsMap_iron, dependentsMap_coal, dependentsMap_oil,
      dependentsMap_steel, dependentsMap_plastics, dependentsMap_cg, processDeps,
      resourceFind_iron, resourceFind_coal, resourceFind_oil, resourceFind_steel,
      resourceFind_plastics, resourceFind_cg, computeMinTotal_iron, computeMinTotal_coal,
      computeMinTotal_oil, computeMinTotal_steel, computeMinTotal_plastics, computeMinTotal_cg,
      ironRes_name, coalRes_name, oilRes_name, steelRes_name, plasticsRes_name,
      consumerGoodsRes_name, upd_apply, List.mem_cons, List.not_mem_nil, List.nil_append,
      List.cons_append, List.append_nil] <;>
    (try split_ifs) <;>
    (try simp +decide only [cascadeStep16, cascadeStep15, cascadeStep14, cascadeStep13,
      cascadeStep12, cascadeStep_qnil, dependentsMap_iron, dependentsMap_coal, dependentsMap_oil,
      dependentsMap_steel, dependentsMap_plastics, dependentsMap_cg, processDeps,
      resourceFind_iron, resourceFind_coal, resourceFind_oil, resourceFind_steel,
      resourceFind_plastics, resourceFind_cg, computeMinTotal_iron, computeMinTotal_coal,
      computeMinTotal_oil, computeMinTotal_steel, computeMinTotal_plastics, computeMinTotal_cg,
      ironRes_name, coalRes_name, oilRes_name, steelRes_name, plasticsRes_name,
      consumerGoodsRes_name, upd_apply, List.mem_cons, List.not_mem_nil, List.nil_append,
      List.cons_append, List.append_nil]) <;>
    (try split_ifs) <;>
    (try simp +decide only [cascadeStep16, cascadeStep15, cascadeStep14, cascadeStep13,
      cascadeStep12, cascadeStep_qnil, dependentsMap_iron, dependentsMap_coal, dependentsMap_oil,
      dependentsMap_steel, dependentsMap_plastics, dependentsMap_cg, processDeps,
      resourceFind_iron, resourceFind_coal, resourceFind_oil, resourceFind_steel,
      resourceFind_plastics, resourceFind_cg, computeMinTotal_iron, computeMinTotal_coal,
      computeMinTotal_oil, computeMinTotal_steel, computeMinTotal_plastics, computeMinTotal_cg,
      ironRes_name, coalRes_name, oilRes_name, steelRes_name, plasticsRes_name,
      consumerGoodsRes_name, upd_apply, List.mem_cons, List.not_mem_nil, List.nil_append,
      List.cons_append, List.append_nil]) <;>
    (try split_ifs) <;>
    (try simp +decide only [cascadeStep16, cascadeStep15, cascadeStep14, cascadeStep13,
      cascadeStep12, cascadeStep_qnil, dependentsMap_iron, dependentsMap_coal, dependentsMap_oil,
      dependentsMap_steel, dependentsMap_plastics, dependentsMap_cg, processDeps,
      resourceFind_iron, resourceFind_coal, resourceFind_oil, resourceFind_steel,
      resourceFind_plastics, resourceFind_cg, computeMinTotal_iron, computeMinTotal_coal,
      computeMinTotal_oil, computeMinTotal_steel, computeMinTotal_plastics, computeMinTotal_cg,
      ironRes_name, coalRes_name, oilRes_name, steelRes_name, plasticsRes_name,
      consumerGoodsRes_name, upd_apply, List.mem_cons, List.not_mem_nil, List.nil_append,
      List.cons_append, List.append_nil]) <;>
    (try split_ifs) <;>
    (try simp +decide only [cascadeStep16, cascadeStep15, cascadeStep14, cascadeStep13,
      cascadeStep12, cascadeStep_qnil, dependentsMap_iron, dependentsMap_coal, dependentsMap_oil,
      dependentsMap_steel, dependentsMap_plastics, dependentsMap_cg, processDeps,
      resourceFind_iron, resourceFind_coal, resourceFind_oil, resourceFind_steel,
      resourceFind_plastics, resourceFind_cg, computeMinTotal_iron, computeMinTotal_coal,
      computeMinTotal_oil, computeMinTotal_steel, computeMinTotal_plastics, computeMinTotal_cg,
      ironRes_name, coalRes_name, oilRes_name, steelRes_name, plasticsRes_name,
      consumerGoodsRes_name, upd_apply, List.mem_cons, List.not_mem_nil, List.nil_append,
      List.cons_append, List.append_nil]) <;>
    (try split_ifs) <;>
    (try (exact False.elim (by assumption))) <;>
    (try (exact absurd trivial (by assumption))) <;>
    (try omega) <;>
    (try simp_all) <;>
    (try omega)

theorem prim_steel (st : EngineState) (minv v : Int) :
    (setResourceValueWithMin false minv "steel" v st).values "steel" =
      (if v < minv then minv else v) := by
  simp only [setResourceValueWithMin]
  split_ifs <;>
    simp +decide only [cascadeStep16, cascadeStep15, cascadeStep14, cascadeStep13,
      cascadeStep12, cascadeStep_qnil, dependentsMap_iron, dependentsMap_coal, dependentsMap_oil,
      dependentsMap_steel, dependentsMap_plastics, dependentsMap_cg, processDeps,
      resourceFind_iron, resourceFind_coal, resourceFind_oil, resourceFind_steel,
      resourceFind_plastics, resourceFind_cg, computeMinTotal_iron, computeMinTotal_coal,
      computeMinTotal_oil, computeMinTotal_steel, computeMinTotal_plastics, computeMinTotal_cg,
      ironRes_name, coalRes_name, oilRes_name, steelRes_name, plasticsRes_name,
      consumerGoodsRes_name, upd_apply, List.mem_cons, List.not_mem_nil, List.nil_append,
      List.cons_append, List.append_nil] <;>
    (try split_ifs) <;>
    (try simp +decide only [cascadeStep16, cascadeStep15, cascadeStep14, cascadeStep13,
      cascadeStep12, cascadeStep_qnil, dependentsMap_iron, dependentsMap_coal, dependentsMap_oil,
      dependentsMap_steel, dependentsMap_plastics, dependentsMap_cg, processDeps,
      resourceFind_iron, resourceFind_coal, resourceFind_oil, resourceFind_steel,
      resourceFind_plastics, resourceFind_cg, computeMinTotal_iron, computeMinTotal_coal,
      computeMinTotal_oil, computeMinTotal_steel, computeMinTotal_plastics, computeMinTotal_cg,
      ironRes_name, coalRes_name, oilRes_name, steelRes_name, plasticsRes_name,
      consumerGoodsRes_name, upd_apply, List.mem_cons, List.not_mem_nil, List.nil_append,
      List.cons_append, List.append_nil]) <;>
    (try split_ifs) <;>
    (try simp +decide only [cascadeStep16, cascadeStep15, cascadeStep14, cascadeStep13,
      cascadeStep12, cascadeStep_qnil, dependentsMap_iron, dependentsMap_coal, dependentsMap_oil,
      dependentsMap_steel, dependentsMap_plastics, dependentsMap_cg, processDeps,
      resourceFind_iron, resourceFind_coal, resourceFind_oil, resourceFind_steel,
      resourceFind_plastics, resourceFind_cg, computeMinTotal_iron, computeMinTotal_coal,
      computeMinTotal_oil, computeMinTotal_steel, computeMinTotal_plastics, computeMinTotal_cg,
      ironRes_name, coalRes_name, oilRes_name, steelRes_name, plasticsRes_name,
      consumerGoodsRes_name, upd_apply, List.mem_cons, List.not_mem_nil, List.nil_append,
      List.cons_append, List.append_nil]) <;>
    (try split_ifs) <;>
    (try simp +decide only [cascadeStep16, cascadeStep15, cascadeStep14, cascadeStep13,
      cascadeStep12, cascadeStep_qnil, dependentsMap_iron, dependentsMap_coal, dependentsMap_oil,
      dependentsMap_steel, dependentsMap_plastics, dependentsMap_cg, processDeps,
      resourceFind_iron, resourceFind_coal, resourceFind_oil, resourceFind_steel,
      resourceFind_plastics, resourceFind_cg, computeMinTotal_iron, computeMinTotal_coal,
      computeMinTotal_oil, computeMinTotal_steel, computeMinTotal_plastics, computeMinTotal_cg,
      ironRes_name, coalRes_name, oilRes_name, steelRes_name, plasticsRes_name,
      consumerGoodsRes_name, upd_apply, List.mem_cons, List.not_mem_nil, List.nil_append,
      List.cons_append, List.append_nil]) <;>
    (try split_ifs) <;>
    (try simp +decide only [cascadeStep16, cascadeStep15, cascadeStep14, cascadeStep13,
      cascadeStep12, cascadeStep_qnil, dependentsMap_iron, dependentsMap_coal, dependentsMap_oil,
      dependentsMap_steel, dependentsMap_plastics, dependentsMap_cg, processDeps,
      resourceFind_iron, resourceFind_coal, resourceFind_oil, resourceFind_steel,
      resourceFind_plastics, resourceFind_cg, computeMinTotal_iron, computeMinTotal_coal,
      computeMinTotal_oil, computeMinTotal_steel, computeMinTotal_plastics, computeMinTotal_cg,
      ironRes_name, coalRes_name, oilRes_name, steelRes_name, plasticsRes_name,
      consumerGoodsRes_name, upd_apply, List.mem_cons, List.not_mem_nil, List.nil_append,
      List.cons_append, List.append_nil]) <;>
    (try split_ifs) <;>
    (try (exact False.elim (by assumption))) <;>
    (try (exact absurd trivial (by assumption))) <;>
    (try omega) <;>
    (try simp_all) <;>
    (try omega)

theorem prim_plastics (st : EngineState) (minv v : Int) :
    (setResourceValueWithMin false minv "plastics" v st).values "plastics" =
      (if v < minv then minv else v) := by
  simp only [setResourceValueWithMin]
  split_ifs <;>
    simp +decide only [cascadeStep16, cascadeStep15, cascadeStep14, cascadeStep13,
      cascadeStep12, cascadeStep_qnil, dependentsMap_iron, dependentsMap_coal, dependentsMap_oil,
      dependentsMap_steel, dependentsMap_plastics, dependentsMap_cg, processDeps,
      resourceFind_iron, resourceFind_coal, resourceFind_oil, resourceFind_steel,
      resourceFind_plastics, resourceFind_cg, computeMinTotal_iron, computeMinTotal_coal,
      computeMinTotal_oil, computeMinTotal_steel, computeMinTotal_plastics, computeMinTotal_cg,
      ironRes_name, coalRes_name, oilRes_name, steelRes_name, plasticsRes_name,
      consumerGoodsRes_name, upd_apply, List.mem_cons, List.not_mem_nil, List.nil_append,
      List.cons_append, List.append_nil] <;>
    (try split_ifs) <;>
    (try simp +decide only [cascadeStep16, cascadeStep15, cascadeStep14, cascadeStep13,
      cascadeStep12, cascadeStep_qnil, dependentsMap_iron, dependentsMap_coal, dependentsMap_oil,
      dependentsMap_steel, dependentsMap_plastics, dependentsMap_cg, processDeps,
      resourceFind_iron, resourceFind_coal, resourceFind_oil, resourceFind_steel,
      resourceFind_plastics, resourceFind_cg, computeMinTotal_iron, computeMinTotal_coal,
      computeMinTotal_oil, computeMinTotal_steel, computeMinTotal_plastics, computeMinTotal_cg,
      ironRes_name, coalRes_name, oilRes_name, steelRes_name, plasticsRes_name,
      consumerGoodsRes_name, upd_apply, List.mem_cons, List.not_mem_nil, List.nil_append,
      List.cons_append, List.append_nil]) <;>
    (try split_ifs) <;>
    (try simp +decide only [cascadeStep16, cascadeStep15, cascadeStep14, cascadeStep13,
      cascadeStep12, cascadeStep_qnil, dependentsMap_iron, dependentsMap_coal, dependentsMap_oil,
      dependentsMap_steel, dependentsMap_plastics, dependentsMap_cg, processDeps,
      resourceFind_iron, resourceFind_coal, resourceFind_oil, resourceFind_steel,
      resourceFind_plastics, resourceFind_cg, computeMinTotal_iron, computeMinTotal_coal,
      computeMinTotal_oil, computeMinTotal_steel, computeMinTotal_plastics, computeMinTotal_cg,
      ironRes_name, coalRes_name, oilRes_name, steelRes_name, plasticsRes_name,
      consumerGoodsRes_name, upd_apply, List.mem_cons, List.not_mem_nil, List.nil_append,
      List.cons_append, List.append_nil]) <;>
    (try split_ifs) <;>
    (try simp +decide only [cascadeStep16, cascadeStep15, cascadeStep14, cascadeStep13,
      cascadeStep12, cascadeStep_qnil, dependentsMap_iron, dependentsMap_coal, dependentsMap_oil,
      dependentsMap_steel, dependentsMap_plastics, dependentsMap_cg, processDeps,
      resourceFind_iron, resourceFind_coal, resourceFind_oil, resourceFind_steel,
      resourceFind_plastics, resourceFind_cg, computeMinTotal_iron, computeMinTotal_coal,
      computeMinTotal_oil, computeMinTotal_steel, computeMinTotal_plastics, computeMinTotal_cg,
      ironRes_name, coalRes_name, oilRes_name, steelRes_name, plasticsRes_name,
      consumerGoodsRes_name, upd_apply, List.mem_cons, List.not_mem_nil, List.nil_append,
      List.cons_append, List.append_nil]) <;>
    (try split_ifs) <;>
    (try simp +decide only [cascadeStep16, cascadeStep15, cascadeStep14, cascadeStep13,
      cascadeStep12, cascadeStep_qnil, dependentsMap_iron, dependentsMap_coal, dependentsMap_oil,
      dependentsMap_steel, dependentsMap_plastics, dependentsMap_cg, processDeps,
      resourceFind_iron, resourceFind_coal, resourceFind_oil, resourceFind_steel,
      resourceFind_plastics, resourceFind_cg, computeMinTotal_iron, computeMinTotal_coal,
      computeMinTotal_oil, computeMinTotal_steel, computeMinTotal_plastics, computeMinTotal_cg,
      ironRes_name, coalRes_name, oilRes_name, steelRes_name, plasticsRes_name,
      consumerGoodsRes_name, upd_apply, List.mem_cons, List.not_mem_nil, List.nil_append,
      List.cons_append, List.append_nil]) <;>
    (try split_ifs) <;>
    (try (exact False.elim (by assumption))) <;>
    (try (exact absurd trivial (by assumption))) <;>
    (try omega) <;>
    (try simp_all) <;>
    (try omega)

theorem prim_cg (st : EngineState) (minv v : Int) :
    (setResourceValueWithMin false minv "consumer_goods" v st).values "consumer_goods" =
      (if v < minv then minv else v) := by
  simp only [setResourceValueWithMin]
  split_ifs <;>
    simp +decide only [cascadeStep16, cascadeStep15, cascadeStep14, cascadeStep13,
      cascadeStep12, cascadeStep_qnil, dependentsMap_iron, dependentsMap_coal, dependentsMap_oil,
      dependentsMap_steel, dependentsMap_plastics, dependentsMap_cg, processDeps,
      resourceFind_iron, resourceFind_coal, resourceFind_oil, resourceFind_steel,
      resourceFind_plastics, resourceFind_cg, computeMinTotal_iron, computeMinTotal_coal,
      computeMinTotal_oil, computeMinTotal_steel, computeMinTotal_plastics, computeMinTotal_cg,
      ironRes_name, coalRes_name, oilRes_name, steelRes_name, plasticsRes_name,
      consumerGoodsRes_name, upd_apply, List.mem_cons, List.not_mem_nil, List.nil_append,
      List.cons_append, List.append_nil] <;>
    (try split_ifs) <;>
    (try simp +decide only [cascadeStep16, cascadeStep15, cascadeStep14, cascadeStep13,
      cascadeStep12, cascadeStep_qnil, dependentsMap_iron, dependentsMap_coal, dependentsMap_oil,
      dependentsMap_steel, dependentsMap_plastics, dependentsMap_cg, processDeps,
      resourceFind_iron, resourceFind_coal, resourceFind_oil, resourceFind_steel,
      resourceFind_plastics, resourceFind_cg, computeMinTotal_iron, computeMinTotal_coal,
      computeMinTotal_oil, computeMinTotal_steel, computeMinTotal_plastics, computeMinTotal_cg,
      ironRes_name, coalRes_name, oilRes_name, steelRes_name, plasticsRes_name,
      consumerGoodsRes_name, upd_apply, List.mem_cons, List.not_mem_nil, List.nil_append,
      List.cons_append, List.append_nil]) <;>
    (try split_ifs) <;>
    (try simp +decide only [cascadeStep16, cascadeStep15, cascadeStep14, cascadeStep13,
      cascadeStep12, cascadeStep_qnil, dependentsMap_iron, dependentsMap_coal, dependentsMap_oil,
      dependentsMap_steel, dependentsMap_plastics, dependentsMap_cg, processDeps,
      resourceFind_iron, resourceFind_coal, resourceFind_oil, resourceFind_steel,
      resourceFind_plastics, resourceFind_cg, computeMinTotal_iron, computeMinTotal_coal,
      computeMinTotal_oil, computeMinTotal_steel, computeMinTotal_plastics, computeMinTotal_cg,
      ironRes_name, coalRes_name, oilRes_name, steelRes_name, plasticsRes_name,
      consumerGoodsRes_name, upd_apply, List.mem_cons, List.not_mem_nil, List.nil_append,
      List.cons_append, List.append_nil]) <;>
    (try split_ifs) <;>
    (try simp +decide only [cascadeStep16, cascadeStep15, cascadeStep14, cascadeStep13,
      cascadeStep12, cascadeStep_qnil, dependentsMap_iron, dependentsMap_coal, dependentsMap_oil,
      dependentsMap_steel, dependentsMap_plastics, dependentsMap_cg, processDeps,
      resourceFind_iron, resourceFind_coal, resourceFind_oil, resourceFind_steel,
      resourceFind_plastics, resourceFind_cg, computeMinTotal_iron, computeMinTotal_coal,
      computeMinTotal_oil, computeMinTotal_steel, computeMinTotal_plastics, computeMinTotal_cg,
      ironRes_name, coalRes_name, oilRes_name, steelRes_name, plasticsRes_name,
      consumerGoodsRes_name, upd_apply, List.mem_cons, List.not_mem_nil, List.nil_append,
      List.cons_append, List.append_nil]) <;>
    (try split_ifs) <;>
    (try simp +decide only [cascadeStep16, cascadeStep15, cascadeStep14, cascadeStep13,
      cascadeStep12, cascadeStep_qnil, dependentsMap_iron, dependentsMap_coal, dependentsMap_oil,
      dependentsMap_steel, dependentsMap_plastics, dependentsMap_cg, processDeps,
      resourceFind_iron, resourceFind_coal, resourceFind_oil, resourceFind_steel,
      resourceFind_plastics, resourceFind_cg, computeMinTotal_iron, computeMinTotal_coal,
      computeMinTotal_oil, computeMinTotal_steel, computeMinTotal_plastics, computeMinTotal_cg,
      ironRes_name, coalRes_name, oilRes_name, steelRes_name, plasticsRes_name,
      consumerGoodsRes_name, upd_apply, List.mem_cons, List.not_mem_nil, List.nil_append,
      List.cons_append, List.append_nil]) <;>
    (try split_ifs) <;>
    (try (exact False.elim (by assumption))) <;>
    (try (exact absurd trivial (by assumption))) <;>
    (try omega) <;>
    (try simp_all) <;>
    (try omega)

/-! ## Claim C3: `completeContract`'s resource write -/

theorem ite_lt_eq_max (m v : Int) : (if v < m then m else v) = max m v := by
  split_ifs <;> omega

/-- Fixture: an active contract demanding 3 units of steel. -/
def steelContract : Contract :=
  { value := 45, reward := 50, resources := [("steel", 3)], id := 1, label := "L",
    difficulty := 1, rewardRange := (1, 1.4), maxResources := none }

/-- Fixture: contract state holding only `steelContract`. -/
def steelCst : ContractsState :=
  { contracts := [steelContract], currentTargetValue := 50 }

/-- Fixture: the initial engine state with steel moved up to 100. -/
def steel100State : EngineState :=
  { values := upd initialValues "steel" 100, histories := initialHistories, actionLog := [] }

theorem steelCst_find : steelCst.contracts.find? (·.id = 1) = some steelContract := rfl

/-- C3 counterexample: completing a contract requiring 3 units of steel while
steel sits exactly at its floor (iron 5 + coal 10 = 15) does not set steel to
`max(2, floor(15 × 0.85))` = 12 — the write goes through `setResourceValue`,
whose minimum clamp raises it back to 15.  The claimed bypass does not
exist. -/
theorem completeContract_bypass_cex :
    ((completeContract false 1 steelCst initialState).2).values "steel" ≠
      max 2 (Int.floor ((initialState.values "steel" : ℚ) * (1 - 0.05 * (3 : ℚ)))) := by
  unfold completeContract
  rw [steelCst_find]
  dsimp only
  rw [show steelContract.resources = [("steel", 3)] from rfl]
  simp only [List.foldl_cons, List.foldl_nil, setResourceValueSnap, resourceFind_steel]
  rw [prim_steel]
  rw [show computeMinTotal steelRes initialState.values = 15 from by decide,
    show initialState.values "steel" = 15 from by decide]
  norm_num

/-- C3 (amended): completing an active contract whose bundle is a single
resource `name` with quantity `qty` sets that resource's value to
`max(2, floor(value × (1 − 0.05 × qty)))` *passed through the State Engine's
minimum clamp*: with `ignoreMinimum` off the final value is the maximum of
that quantity and the resource's computed minimum (no bypass); the escalator
is still multiplied by 1.1.  (With several bundled resources each write has
the same per-step form, but a later write's cascade may touch an earlier
resource again.) -/
theorem completeContract_clamped (cid : Int) (cst : ContractsState) (est : EngineState)
    (c : Contract) (name : String) (qty : Nat) (r : RawResource)
    (hfind : cst.contracts.find? (·.id = cid) = some c)
    (hres : c.resources = [(name, qty)])
    (hr : resourceFind name = some r) :
    ((completeContract false cid cst est).2).values name =
      max (computeMinTotal r est.values)
        (max 2 (Int.floor ((est.values name : ℚ) * (1 - 0.05 * (qty : ℚ))))) ∧
    ((completeContract false cid cst est).1).currentTargetValue =
      cst.currentTargetValue * 1.1 := by
  constructor
  · unfold completeContract
    rw [hfind]
    dsimp only
    rw [hres]
    simp only [List.foldl_cons, List.foldl_nil, setResourceValueSnap]
    rw [hr]
    rcases resourceFind_name_cases hr with rfl | rfl | rfl | rfl | rfl | rfl
    · rw [resourceFind_iron] at hr
      cases hr
      rw [prim_iron, ite_lt_eq_max]
    · rw [resourceFind_coal] at hr
      cases hr
      rw [prim_coal, ite_lt_eq_max]
    · rw [resourceFind_oil] at hr
      cases hr
      rw [prim_oil, ite_lt_eq_max]
    · rw [resourceFind_steel] at hr
      cases hr
      rw [prim_steel, ite_lt_eq_max]
    · rw [resourceFind_plastics] at hr
      cases hr
      rw [prim_plastics, ite_lt_eq_max]
    · rw [resourceFind_cg] at hr
      cases hr
      rw [prim_cg, ite_lt_eq_max]
  · unfold completeContract
    rw [hfind]

/-- C3 witness: the spec's own example — steel at 100 with quantity 3 ends at
85 (its minimum 15 does not interfere), and the escalator moves 50 → 55. -/
theorem completeContract_clamped_witness :
    ((completeContract false 1 steelCst steel100State).2).values "steel" = 85 ∧
    ((completeContract false 1 steelCst steel100State).1).currentTargetValue = 50 * 1.1 := by
  have h := completeContract_clamped 1 steelCst steel100State steelContract "steel" 3 steelRes
    rfl rfl (by decide)
  refine ⟨?_, h.2⟩
  rw [h.1]
  rw [show computeMinTotal steelRes steel100State.values = 15 from by decide,
    show steel100State.values "steel" = 100 from by decide]
  norm_num

/-! ## Claim C9: noise adjustment at the minimum -/

/-- C9: with `ignoreMin` off and a resource sitting exactly at its computed
minimum, the per-resource noise adjustment either leaves the value unchanged
(the 40%-skip branch, or the downward roll that the clamp turns into a no-op)
or increases it by exactly 1; in particular the adjusted value never falls
below the minimum. -/
theorem noise_at_minimum (name : String) (minv value : Int) (r1 r2 : ℚ)
    (h : value = minv) :
    ∀ p ∈ computeAdjustment false name minv value r1 r2,
      minv ≤ p.2 ∧ (p.2 = value ∨ p.2 = value + 1) := by
  subst h
  intro p hp
  rw [Option.mem_def] at hp
  simp only [computeAdjustment, Bool.false_eq_true, if_false] at hp
  rw [show ((value : ℚ) - (value : ℚ)) / (value : ℚ) = 0 from by simp] at hp
  rw [show (0.1 + 0.8 * (0 : ℚ)) = 0.1 from by norm_num] at hp
  by_cases h1 : r1 < (0.4 : ℚ)
  · rw [if_pos h1] at hp
    cases hp
    exact ⟨le_refl _, Or.inl rfl⟩
  · rw [if_neg h1] at hp
    by_cases h2 : r2 < (0.1 : ℚ)
    · rw [if_pos h2, if_pos (show value + (-1 : Int) < value from by omega),
        if_pos rfl] at hp
      cases hp
    · rw [if_neg h2, if_neg (show ¬ value + (1 : Int) < value from by omega),
        if_neg (show ¬ value + (1 : Int) = value from by omega)] at hp
      cases hp
      exact ⟨by omega, Or.inr rfl⟩

/-- C9 witness: `noise_at_minimum` evaluated at iron's base minimum 5 with a
skip roll and with an upward roll. -/
theorem noise_at_minimum_witness :
    (∀ p ∈ computeAdjustment false "iron" 5 5 0 0, (5 : Int) ≤ p.2 ∧ (p.2 = 5 ∨ p.2 = 5 + 1)) ∧
    (∀ p ∈ computeAdjustment false "iron" 5 5 (1/2) (1/2), (5 : Int) ≤ p.2 ∧
      (p.2 = 5 ∨ p.2 = 5 + 1)) :=
  ⟨noise_at_minimum "iron" 5 5 0 0 rfl, noise_at_minimum "iron" 5 5 (1/2) (1/2) rfl⟩

/-! ## Claim C5: reward bounds of generated contracts -/

/-- Fixture oracle: general mode, always picking the first entry, with zero
label and reward rolls. -/
def oracleZero : Oracle :=
  { specialistRoll := 0.6, countRoll := 0, shuffle := id, pickRoll := fun _ => 0,
    labelRoll := 0, rewardRoll := 0 }

theorem oracleZero_valid : oracleZero.Valid := by
  refine ⟨⟨?_, ?_⟩, ⟨?_, ?_⟩, ?_, ⟨?_, ?_⟩, ⟨?_, ?_⟩, ?_⟩ <;>
    first
      | norm_num [oracleZero]
      | (intro i; constructor <;> norm_num [oracleZero])
      | (intro l; exact List.Perm.refl l)

/-- The concrete run used against C5: one resource worth 100, target 100,
caller-supplied reward bounds 0.01 and 0.05. -/
theorem generateRandomContract_smallBounds_run :
    generateRandomContract [("iron", 100)] [] 1 (1/100) (5/100) none oracleZero 5 100 7 =
      some
        { value := 100
          reward := 10
          resources := [("iron", 1)]
          id := 7
          label := "Northline Freight"
          difficulty := 1
          rewardRange := (1/10, 1/10)
          maxResources := none } := by
  have hacc : generalAccumulate [("iron", 100)] ((100 : ℚ) * 1) none oracleZero.pickRoll 5 0 0 [] =
      some (100, [("iron", 1)]) := by
    rw [show (5 : Nat) = 4 + 1 from rfl, generalAccumulate]
    norm_num [underMax, lookupVal, bumpSel, randIndex, oracleZero]
    rw [show (4 : Nat) = 3 + 1 from rfl, generalAccumulate]
    norm_num
  unfold generateRandomContract
  dsimp only
  rw [if_neg (show ¬ oracleZero.specialistRoll < (0.5 : ℚ) from by norm_num [oracleZero])]
  rw [hacc]
  unfold buildContract
  dsimp only
  rw [show ((ContractLabels.filter
      (fun l => ¬ l ∈ ([] : List Contract).map (·.label))).isEmpty) = false from by decide]
  norm_num [ContractLabels, randIndex, oracleZero]

/-- C5 counterexample: with caller-supplied bounds (0.01, 0.05) the reconciled
lower multiplier is `max(0.1, 0.01) = 0.1`, outside the caller's interval: the
generated contract has value 100 and reward 10, and no multiplier `m` with
`0.01 ≤ m ≤ 0.05` (let alone strictly inside) satisfies `10 = floor(100·m)`. -/
theorem reward_bounds_cex :
    ∃ c, generateRandomContract [("iron", 100)] [] 1 (1/100) (5/100) none oracleZero 5 100 7 =
        some c ∧
      ∀ m : ℚ, 1/100 ≤ m → m ≤ 5/100 → c.reward ≠ Int.floor ((c.value : ℚ) * m) := by
  refine ⟨_, generateRandomContract_smallBounds_run, ?_⟩
  intro m _ hm2 hEq
  simp only at hEq
  have hlt : (((100 : Int) : ℚ) * m) < ((10 : Int) : ℚ) := by push_cast; nlinarith
  have hfl : Int.floor (((100 : Int) : ℚ) * m) < 10 := Int.floor_lt.mpr hlt
  omega

/-- C5 (amended): every generated contract's reward is `floor(value × m)` for
a multiplier `m` in the *reconciled* closed interval
`[max(0.1, min(a, b)), max(max(0.1, min(a, b)), b)]` (with `a`, `b` the
caller-supplied bounds in either order); `m` can equal the interval's
endpoints (it equals the lower one whenever the reward roll is 0, and the
interval can be a single point).  When both caller bounds are at least 0.1
this interval lies within `[min(a, b), max(a, b)]`. -/
theorem reward_bounds (values : List (String × Int)) (contracts : List Contract)
    (cd a b : ℚ) (mr : Option Nat) (o : Oracle) (fuel : Nat) (tv : ℚ) (id : Int)
    (c : Contract) (hv : o.Valid)
    (hgen : generateRandomContract values contracts cd a b mr o fuel tv id = some c) :
    ∃ m : ℚ,
      c.reward = Int.floor ((c.value : ℚ) * m) ∧
      max 0.1 (min a b) ≤ m ∧ m ≤ max (max 0.1 (min a b)) b ∧
      (0.1 ≤ a → 0.1 ≤ b → min a b ≤ m ∧ m ≤ max a b) := by
  obtain ⟨p, hp, hc⟩ := Option.map_eq_some'.mp hgen
  obtain ⟨hr0, hr1⟩ := hv.2.2.2.2.1
  subst hc
  have hd : (0 : ℚ) ≤ max (max 0.1 (min a b)) b - max 0.1 (min a b) := by
    have := le_max_left (max 0.1 (min a b)) b
    linarith
  have hlow : max 0.1 (min a b) ≤
      max 0.1 (min a b) + o.rewardRoll * (max (max 0.1 (min a b)) b - max 0.1 (min a b)) := by
    nlinarith
  have hhigh : max 0.1 (min a b) + o.rewardRoll *
        (max (max 0.1 (min a b)) b - max 0.1 (min a b)) ≤ max (max 0.1 (min a b)) b := by
    nlinarith
  refine ⟨max 0.1 (min a b) + o.rewardRoll * (max (max 0.1 (min a b)) b - max 0.1 (min a b)),
    rfl, hlow, hhigh, ?_⟩
  intro ha hb
  have hmin : max 0.1 (min a b) = min a b := max_eq_right (le_min ha hb)
  have hmax : max (max 0.1 (min a b)) b = b := by
    rw [hmin]
    exact max_eq_right (min_le_right a b)
  constructor
  · calc min a b = max 0.1 (min a b) := hmin.symm
      _ ≤ _ := hlow
  · calc max 0.1 (min a b) + o.rewardRoll *
          (max (max 0.1 (min a b)) b - max 0.1 (min a b)) ≤ max (max 0.1 (min a b)) b := hhigh
      _ = b := hmax
      _ ≤ max a b := le_max_right a b

/-- C5 witness: `reward_bounds` on a concrete run with the default bounds
1 and 1.4. -/
theorem reward_bounds_witness :
    ∃ m : ℚ,
      (buildContract [] 1 1 1.4 none oracleZero.labelRoll oracleZero.rewardRoll 7
          (100, [("iron", 1)])).reward =
        Int.floor (((buildContract [] 1 1 1.4 none oracleZero.labelRoll oracleZero.rewardRoll 7
            (100, [("iron", 1)])).value : ℚ) * m) ∧
      max 0.1 (min 1 1.4) ≤ m ∧ m ≤ max (max 0.1 (min 1 1.4)) 1.4 ∧
      (0.1 ≤ (1 : ℚ) → 0.1 ≤ (1.4 : ℚ) → min 1 1.4 ≤ m ∧ m ≤ max 1 1.4) := by
  have hacc : generalAccumulate [("iron", 100)] ((100 : ℚ) * 1) none oracleZero.pickRoll 5 0 0 [] =
      some (100, [("iron", 1)]) := by
    rw [show (5 : Nat) = 4 + 1 from rfl, generalAccumulate]
    norm_num [underMax, lookupVal, bumpSel, randIndex, oracleZero]
    rw [show (4 : Nat) = 3 + 1 from rfl, generalAccumulate]
    norm_num
  have hgen : generateRandomContract [("iron", 100)] [] 1 1 1.4 none oracleZero 5 100 7 =
      some (buildContract [] 1 1 1.4 none oracleZero.labelRoll oracleZero.rewardRoll 7
        (100, [("iron", 1)])) := by
    unfold generateRandomContract
    dsimp only
    rw [if_neg (show ¬ oracleZero.specialistRoll < (0.5 : ℚ) from by norm_num [oracleZero])]
    rw [hacc]
    rfl
  exact reward_bounds [("iron", 100)] [] 1 1 1.4 none oracleZero 5 100 7 _
    oracleZero_valid hgen

/-! ## Claim C2: undo round-trip

`Applies chs v v'` is the semantic reading of a change list: applied in
order, each record stores the value its resource held just before that
write.  The change-groups the engine logs always satisfy it, which is what
makes the value-restoring half of undo exact. -/

inductive Applies : List Change → (String → Int) → (String → Int) → Prop
  | nil (v : String → Int) : Applies [] v v
  | cons (ch : Change) (rest : List Change) (v v' : String → Int)
      (hprev : ch.prevValue = v ch.name)
      (happ : Applies rest (upd v ch.name ch.nextValue) v') :
      Applies (ch :: rest) v v'

theorem Applies.append {l1 l2 : List Change} {v u w : String → Int}
    (h1 : Applies l1 v u) (h2 : Applies l2 u w) : Applies (l1 ++ l2) v w := by
  induction h1 with
  | nil => exact h2
  | cons ch rest v v' hprev happ ih => exact Applies.cons ch _ _ _ hprev (ih h2)

theorem processDeps_applies (deps : List String) (s : CascState) :
    ∃ new, (processDeps deps s).2.2.2 = s.2.2.2 ++ new ∧
      Applies new s.2.2.1 (processDeps deps s).2.2.1 := by
  induction deps generalizing s with
  | nil => exact ⟨[], by simp [processDeps], by simpa [processDeps] using Applies.nil s.2.2.1⟩
  | cons depName rest ih =>
    obtain ⟨q, vis, vals, acc⟩ := s
    show ∃ new, (processDeps (depName :: rest) (q, vis, vals, acc)).2.2.2 = acc ++ new ∧ _
    unfold processDeps
    cases hfind : resourceFind depName with
    | none => exact ih (q, vis, vals, acc)
    | some depResource =>
      dsimp only
      by_cases hraise : vals depName < computeMinTotal depResource vals
      · rw [if_pos hraise]
        by_cases hvis : depName ∈ vis
        · rw [if_pos hvis]
          obtain ⟨new', hacc', happ'⟩ :=
            ih (q, vis, upd vals depName (computeMinTotal depResource vals),
              acc ++ [⟨depName, vals depName, computeMinTotal depResource vals, true⟩])
          exact ⟨⟨depName, vals depName, computeMinTotal depResource vals, true⟩ :: new',
            by simpa [List.append_assoc] using hacc',
            Applies.cons _ _ _ _ rfl happ'⟩
        · rw [if_neg hvis]
          obtain ⟨new', hacc', happ'⟩ :=
            ih (q ++ [depName], depName :: vis,
              upd vals depName (computeMinTotal depResource vals),
              acc ++ [⟨depName, vals depName, computeMinTotal depResource vals, true⟩])
          exact ⟨⟨depName, vals depName, computeMinTotal depResource vals, true⟩ :: new',
            by simpa [List.append_assoc] using hacc',
            Applies.cons _ _ _ _ rfl happ'⟩
      · rw [if_neg hraise]
        exact ih (q, vis, vals, acc)

theorem cascadeStep_applies (fuel : Nat) (s : CascState) :
    ∃ new, (cascadeStep fuel s).2 = s.2.2.2 ++ new ∧
      Applies new s.2.2.1 (cascadeStep fuel s).1 := by
  induction fuel generalizing s with
  | zero =>
    obtain ⟨q, vis, vals, acc⟩ := s
    exact ⟨[], by simp [cascadeStep], by simpa [cascadeStep] using Applies.nil vals⟩
  | succ fuel ih =>
    obtain ⟨q, vis, vals, acc⟩ := s
    cases q with
    | nil => exact ⟨[], by simp [cascadeStep], by simpa [cascadeStep] using Applies.nil vals⟩
    | cons cur rest =>
      obtain ⟨new1, hacc1, happ1⟩ :=
        processDeps_applies (dependentsMap cur) (rest, vis, vals, acc)
      obtain ⟨new2, hacc2, happ2⟩ :=
        ih (processDeps (dependentsMap cur) (rest, vis, vals, acc))
      refine ⟨new1 ++ new2, ?_, ?_⟩
      · show (cascadeStep fuel _).2 = _
        rw [hacc2, hacc1, List.append_assoc]
      · exact happ1.append happ2

/-- The change-group logged by one (resolved) `setResourceValue` call: it is
appended to the action log, drives the history update, and `Applies` from
the pre-call values to the post-call values. -/
theorem setResourceValueWithMin_spec (ig : Bool) (minv : Int) (name : String) (next : Int)
    (st : EngineState) :
    ∃ g : List Change,
      (setResourceValueWithMin ig minv name next st).actionLog = st.actionLog ++ [⟨g⟩] ∧
      (setResourceValueWithMin ig minv name next st).histories =
        applyHistories g st.histories ∧
      Applies g st.values (setResourceValueWithMin ig minv name next st).values := by
  have hc : ∀ nv : Int,
      Applies (⟨name, st.values name, nv, false⟩ ::
          (cascadeStep 16 ([name], [name], upd st.values name nv, [])).2)
        st.values (cascadeStep 16 ([name], [name], upd st.values name nv, [])).1 := by
    intro nv
    refine Applies.cons _ _ _ _ rfl ?_
    obtain ⟨new, hacc, happ⟩ := cascadeStep_applies 16 ([name], [name], upd st.values name nv, [])
    dsimp only at hacc happ ⊢
    rw [List.nil_append] at hacc
    rw [hacc]
    exact happ
  have hn : ∀ nv : Int,
      Applies [⟨name, st.values name, nv, false⟩] st.values (upd st.values name nv) :=
    fun nv => Applies.cons _ _ _ _ rfl (Applies.nil _)
  unfold setResourceValueWithMin
  dsimp only
  split_ifs with h1 h2 h3
  · exact ⟨_, rfl, rfl, hc minv⟩
  · exact ⟨_, rfl, rfl, hn minv⟩
  · exact ⟨_, rfl, rfl, hc next⟩
  · exact ⟨_, rfl, rfl, hn next⟩

/-- Reverting a change list in reverse order restores the exact pre-values. -/
theorem Applies.revert {chs : List Change} {v v' : String → Int} (h : Applies chs v v') :
    chs.reverse.foldl (fun w ch => upd w ch.name ch.prevValue) v' = v := by
  induction h with
  | nil => rfl
  | cons ch rest v v' hprev happ ih =>
    rw [List.reverse_cons, List.foldl_append, ih]
    funext x
    by_cases hx : x = ch.name
    · subst hx
      simp [upd, hprev]
    · simp [upd, hx]

/-- Pointwise form of the history update: each resource's history gains the
`nextValue`s of its own records, in group order. -/
theorem applyHistories_eval (g : List Change) (h : String → List Int) (x : String) :
    applyHistories g h x = h x ++ ((g.filter (·.name = x)).map (·.nextValue)) := by
  induction g generalizing h with
  | nil => simp [applyHistories]
  | cons ch rest ih =>
    unfold applyHistories
    rw [List.foldl_cons]
    rw [show (List.foldl (fun h ch => upd h ch.name (h ch.name ++ [ch.nextValue]))
        (upd h ch.name (h ch.name ++ [ch.nextValue])) rest) =
      applyHistories rest (upd h ch.name (h ch.name ++ [ch.nextValue])) from rfl]
    rw [ih]
    by_cases hx : ch.name = x
    · subst hx
      simp [upd, List.filter_cons, List.append_assoc]
    · rw [List.filter_cons]
      simp only [upd]
      rw [if_neg (by simpa using fun hh => hx hh.symm)]
      simp [decide_eq_true_eq, hx]

theorem jsSetList_go (l acc : List String) (hacc : acc.Nodup) :
    (l.foldl (fun acc x => if x ∈ acc then acc else acc ++ [x]) acc).Nodup ∧
      ∀ x, x ∈ l.foldl (fun acc x => if x ∈ acc then acc else acc ++ [x]) acc ↔
        x ∈ acc ∨ x ∈ l := by
  induction l generalizing acc with
  | nil => simpa using hacc
  | cons y ys ih =>
    rw [List.foldl_cons]
    by_cases hy : y ∈ acc
    · rw [if_pos hy]
      obtain ⟨h1, h2⟩ := ih acc hacc
      refine ⟨h1, fun x => ?_⟩
      rw [h2]
      constructor
      · rintro (hx | hx)
        · exact Or.inl hx
        · exact Or.inr (List.mem_cons_of_mem y hx)
      · rintro (hx | hx)
        · exact Or.inl hx
        · rcases List.mem_cons.mp hx with rfl | hx'
          · exact Or.inl hy
          · exact Or.inr hx'
    · rw [if_neg hy]
      obtain ⟨h1, h2⟩ := ih (acc ++ [y]) (by simp [List.nodup_append, hacc, hy])
      refine ⟨h1, fun x => ?_⟩
      rw [h2]
      simp only [List.mem_append, List.mem_singleton, List.mem_cons]
      tauto

theorem jsSetList_nodup (l : List String) : (jsSetList l).Nodup :=
  (jsSetList_go l [] List.nodup_nil).1

theorem jsSetList_mem (l : List String) (x : String) : x ∈ jsSetList l ↔ x ∈ l := by
  rw [show jsSetList l = l.foldl (fun acc x => if x ∈ acc then acc else acc ++ [x]) [] from rfl]
  rw [(jsSetList_go l [] List.nodup_nil).2 x]
  simp

/-- In a group whose records touch pairwise-distinct resources, the records
for a given resource form a singleton. -/
theorem filter_name_singleton {g : List Change} (hnd : (g.map (·.name)).Nodup)
    {ch : Change} (hch : ch ∈ g) : g.filter (·.name = ch.name) = [ch] := by
  induction g with
  | nil => cases hch
  | cons c rest ih =>
    rw [List.map_cons, List.nodup_cons] at hnd
    rcases List.mem_cons.mp hch with rfl | hmem
    · rw [List.filter_cons, if_pos (by simp)]
      congr 1
      rw [List.filter_eq_nil_iff]
      intro b hb hbeq
      apply hnd.1
      rw [decide_eq_true_eq] at hbeq
      rw [← hbeq]
      exact List.mem_map_of_mem (·.name) hb
    · have hne : c.name ≠ ch.name := by
        intro hcn
        apply hnd.1
        rw [hcn]
        exact List.mem_map_of_mem (·.name) hmem
      rw [List.filter_cons, if_neg (by simpa using hne)]
      exact ih hnd.2 hmem

/-- Evaluating the per-touched-resource fold of `undoLastChange`: distinct
names are processed independently. -/
theorem foldl_upd_touched (F : String → List Int → List Int) (names : List String)
    (hnd : names.Nodup) (h0 : String → List Int) (x : String) :
    names.foldl (fun h name => upd h name (F name (h name))) h0 x =
      (if x ∈ names then F x (h0 x) else h0 x) := by
  induction names generalizing h0 with
  | nil => simp
  | cons n rest ih =>
    rw [List.nodup_cons] at hnd
    rw [List.foldl_cons]
    by_cases hx : x = n
    · subst hx
      rw [if_pos (List.mem_cons_self x rest), ih hnd.2, if_neg hnd.1]
      simp [upd]
    · rw [ih hnd.2]
      have hupd : upd h0 n (F n (h0 n)) x = h0 x := by simp [upd, hx]
      by_cases hmem : x ∈ rest
      · rw [if_pos hmem, if_pos (List.mem_cons_of_mem n hmem), hupd]
      · rw [if_neg hmem, if_neg (by simp [hx, hmem]), hupd]

/-- Dropping the just-appended sample restores the old history provided its
own tail does not also match one of the undone values. -/
theorem trimTail_append {vs : List Int} {a : Int} (arr : List Int) (ha : a ∈ vs)
    (htail : ∀ v ∈ vs, arr.getLast? ≠ some v) : trimTail vs (arr ++ [a]) = arr := by
  unfold trimTail
  rw [List.reverse_append]
  simp only [List.reverse_cons, List.reverse_nil, List.nil_append, List.cons_append]
  rw [List.dropWhile_cons]
  rw [if_pos (by simpa using ha)]
  cases harr : arr.reverse with
  | nil =>
    simp at harr
    simp [harr]
  | cons c t =>
    have hlast : arr.getLast? = some c := by
      rw [← List.head?_reverse, harr]
      rfl
    rw [List.dropWhile_cons,
      if_neg (by
        simp only [decide_eq_true_eq]
        intro hcvs
        exact htail c hcvs hlast), ← harr]
    simp

theorem upd_eq_of_ne {α : Type} (f : String → α) (k : String) (v : α) {x : String}
    (h : x ≠ k) : upd f k v x = f x := by simp [upd, h]

/-- C2 counterexample: starting from the reachable state produced by setting
iron to 7 twice (history `[5, 7, 7]`), a third `setResourceValue("iron", 7)`
followed by `undoLastChange` leaves iron's history as `[5]`, not `[5, 7, 7]`:
the trimming loop pops every trailing `7`, not just the one the call
appended. -/
theorem undo_overtrim_cex :
    (undoLastChange (setResourceValue false "iron" 7
        (applyCalls [("iron", 7), ("iron", 7)] initialState))).histories "iron" ≠
      (applyCalls [("iron", 7), ("iron", 7)] initialState).histories "iron" := by decide

/-- C2 (amended): for any state and any effective `setResourceValue` call
(one whose resource name resolves — the others are silent no-ops that log
nothing), `undoLastChange` immediately afterwards *unconditionally* restores
every resource's value exactly and restores the action log (which the call
grew by exactly one entry, so undo shrinks it by exactly one); the history
arrays — and with them the whole state — are restored exactly *provided* the
logged group touches each resource at most once (true of every group this
graph can produce) and, for each record, the last entry of that resource's
pre-call history differs from the value the call wrote — otherwise the
trimming loop also removes older matching trailing entries. -/
theorem undo_roundtrip (ig : Bool) (name : String) (next : Int) (st : EngineState)
    (r : RawResource) (hr : resourceFind name = some r) :
    (undoLastChange (setResourceValue ig name next st)).values = st.values ∧
    (undoLastChange (setResourceValue ig name next st)).actionLog = st.actionLog ∧
    (setResourceValue ig name next st).actionLog.length = st.actionLog.length + 1 ∧
    (∀ grp : ChangeGroup,
      (setResourceValue ig name next st).actionLog.getLast? = some grp →
      (grp.changes.map (·.name)).Nodup →
      (∀ ch ∈ grp.changes, (st.histories ch.name).getLast? ≠ some ch.nextValue) →
      undoLastChange (setResourceValue ig name next st) = st) := by
  have hsv : setResourceValue ig name next st =
      setResourceValueWithMin ig (computeMinTotal r st.values) name next st := by
    unfold setResourceValue setResourceValueSnap
    rw [hr]
  obtain ⟨g, hlog, hhist, happ⟩ :=
    setResourceValueWithMin_spec ig (computeMinTotal r st.values) name next st
  rw [hsv]
  have hlast : (setResourceValueWithMin ig (computeMinTotal r st.values) name next
      st).actionLog.getLast? = some ⟨g⟩ := by
    rw [hlog]
    simp
  have hvals : (g.reverse.foldl (fun v ch => upd v ch.name ch.prevValue)
      (setResourceValueWithMin ig (computeMinTotal r st.values) name next st).values) =
      st.values := happ.revert
  refine ⟨?_, ?_, ?_, ?_⟩
  · unfold undoLastChange
    rw [hlast]
    dsimp only
    exact hvals
  · unfold undoLastChange
    rw [hlast]
    dsimp only
    rw [hlog, List.dropLast_concat]
  · rw [hlog]
    simp
  · intro grp hg hnodup htail
    rw [hlast] at hg
    have hgrp : grp = ⟨g⟩ := (Option.some.inj hg).symm
    subst hgrp
    have hnd : (g.map (·.name)).Nodup := hnodup
    have htl : ∀ ch ∈ g, (st.histories ch.name).getLast? ≠ some ch.nextValue := htail
    unfold undoLastChange
    rw [hlast]
    dsimp only
    rw [hlog, List.dropLast_concat, hhist]
    have hhist' : ((jsSetList (g.reverse.map (·.name))).foldl
        (fun h nm =>
          upd h nm (trimTail ((g.reverse.filter (·.name = nm)).map (·.nextValue)) (h nm)))
        (applyHistories g st.histories)) = st.histories := by
      funext x
      rw [foldl_upd_touched _ _ (jsSetList_nodup _) _ x]
      by_cases hx : x ∈ jsSetList (g.reverse.map (·.name))
      · rw [if_pos hx]
        have hxg : x ∈ g.map (·.name) := by
          have := (jsSetList_mem _ x).mp hx
          simpa [List.map_reverse] using this
        obtain ⟨ch, hch, hchx⟩ := List.mem_map.mp hxg
        subst hchx
        have hfilt : g.filter (·.name = ch.name) = [ch] := filter_name_singleton hnd hch
        have hndrev : (g.reverse.map (·.name)).Nodup := by
          rw [List.map_reverse]
          exact List.nodup_reverse.mpr hnd
        have hfiltrev : g.reverse.filter (·.name = ch.name) = [ch] :=
          filter_name_singleton hndrev (List.mem_reverse.mpr hch)
        rw [hfiltrev, applyHistories_eval, hfilt]
        exact trimTail_append (st.histories ch.name) (by simp)
          (by
            intro v hv
            rw [show (([ch] : List Change).map (·.nextValue)) = [ch.nextValue] from rfl,
              List.mem_singleton] at hv
            subst hv
            exact htl ch hch)
      · rw [if_neg hx]
        rw [applyHistories_eval]
        have hxg : ¬ x ∈ g.map (·.name) := by
          intro hmem
          exact hx ((jsSetList_mem _ x).mpr (by simpa [List.map_reverse] using hmem))
        have : g.filter (·.name = x) = [] := by
          rw [List.filter_eq_nil_iff]
          intro ch hch hcheq
          apply hxg
          rw [decide_eq_true_eq] at hcheq
          rw [← hcheq]
          exact List.mem_map_of_mem (·.name) hch
        rw [this]
        simp
    rw [hvals, hhist']

/-- C2 witness: `undo_roundtrip` on the cascading call coal := 50 from the
initial state: the values and the action log restore unconditionally, and
since the logged group touches coal, steel, plastics and consumer_goods once
each and no pre-call history ends in the written value, the whole state
round-trips. -/
theorem undo_roundtrip_witness :
    undoLastChange (setResourceValue false "coal" 50 initialState) = initialState ∧
    (undoLastChange (setResourceValue false "coal" 50 initialState)).values =
      initialState.values ∧
    (setResourceValue false "coal" 50 initialState).actionLog.length =
      initialState.actionLog.length + 1 :=
  have h := undo_roundtrip false "coal" 50 initialState coalRes (by decide)
  ⟨h.2.2.2 ⟨[⟨"coal", 10, 50, false⟩, ⟨"steel", 15, 55, true⟩, ⟨"plastics", 15, 55, true⟩,
      ⟨"consumer_goods", 30, 110, true⟩]⟩ (by decide) (by decide) (by decide),
    h.1, h.2.2.1⟩

/-! ## Claim C10: termination and value bound of the accumulation loops -/

theorem randIndex_lt {r : ℚ} {len : Nat} (h0 : 0 ≤ r) (h1 : r < 1) (hlen : 0 < len) :
    randIndex r len < len := by
  unfold randIndex
  have hlen2 : (0 : ℚ) < (len : ℚ) := by exact_mod_cast hlen
  have hfl : Int.floor (r * len) < (len : Int) := by
    rw [Int.floor_lt]
    push_cast
    nlinarith
  omega

theorem lookupVal_pos {values : List (String × Int)} (hpos : ∀ p ∈ values, (1 : Int) ≤ p.2)
    {n : String} {v : Int} (h : lookupVal values n = some v) : 1 ≤ v := by
  unfold lookupVal at h
  cases hf : values.find? (·.1 = n) with
  | none => rw [hf] at h; cases h
  | some p =>
    rw [hf] at h
    cases h
    exact hpos p (List.mem_of_find?_eq_some hf)

theorem lookupVal_isSome_of_mem_keys {values : List (String × Int)} {n : String}
    (h : n ∈ values.map (·.1)) : (lookupVal values n).isSome := by
  obtain ⟨p, hp, hpn⟩ := List.mem_map.mp h
  unfold lookupVal
  have : (values.find? (·.1 = n)).isSome := by
    rw [List.find?_isSome]
    exact ⟨p, hp, by simpa using hpn⟩
  cases hf : values.find? (·.1 = n) with
  | none => rw [hf] at this; cases this
  | some q => simp

theorem getD_mem {α : Type} {l : List α} {i : Nat} (h : i < l.length) (d : α) :
    l.getD i d ∈ l := by
  rw [List.getD_eq_getElem l d h]
  exact l.getElem_mem h

/-- Termination and value bound for the specialist accumulation loop: with
positive resource values, specialist names drawn from the value map's keys,
and in-range rolls, the loop finishes within `max 0 ⌈target⌉ - current + 1`
iterations and its total never exceeds `max 0 target`. -/
theorem specialistAccumulate_spec (values : List (String × Int)) (scaledTarget : ℚ)
    (specialist : List String) (pickRoll : Nat → ℚ)
    (hpos : ∀ p ∈ values, (1 : Int) ≤ p.2)
    (hspec : ∀ n ∈ specialist, (lookupVal values n).isSome)
    (hroll : ∀ i, 0 ≤ pickRoll i ∧ pickRoll i < 1) :
    ∀ (fuel : Nat) (i : Nat) (cur : Int) (sel : List (String × Nat)),
      0 ≤ cur → (cur : ℚ) ≤ max 0 scaledTarget →
      max 0 ⌈scaledTarget⌉ - cur < (fuel : Int) →
      ∃ res, specialistAccumulate values scaledTarget specialist pickRoll fuel i cur sel =
          some res ∧ 0 ≤ res.1 ∧ (res.1 : ℚ) ≤ max 0 scaledTarget := by
  intro fuel
  induction fuel with
  | zero =>
    intro i cur sel hcur0 hcurq hfuel
    exfalso
    have hle : (cur : ℚ) ≤ ((max 0 ⌈scaledTarget⌉ : Int) : ℚ) := by
      calc (cur : ℚ) ≤ max 0 scaledTarget := hcurq
        _ ≤ ((max 0 ⌈scaledTarget⌉ : Int) : ℚ) := by
            push_cast
            exact max_le_max (le_refl 0) (Int.le_ceil scaledTarget)
    have : cur ≤ max 0 ⌈scaledTarget⌉ := by exact_mod_cast hle
    omega
  | succ fuel ih =>
    intro i cur sel hcur0 hcurq hfuel
    simp only [specialistAccumulate]
    split_ifs with h1 h2 h3
    · exact ⟨(cur, sel), rfl, hcur0, hcurq⟩
    · exact ⟨(cur, sel), rfl, hcur0, hcurq⟩
    · -- recursive step: one more unit is added
      have hne : specialist ≠ [] := by
        intro hnil
        apply h2
        rw [hnil]
        rfl
      have hlen : 0 < specialist.length := List.length_pos.mpr hne
      have hidx : randIndex (pickRoll i) specialist.length < specialist.length :=
        randIndex_lt (hroll i).1 (hroll i).2 hlen
      have hmem : specialist.getD (randIndex (pickRoll i) specialist.length) "" ∈ specialist :=
        getD_mem hidx ""
      have hsome := hspec _ hmem
      obtain ⟨v, hv⟩ := Option.isSome_iff_exists.mp hsome
      have hval : valueOf values (specialist.getD (randIndex (pickRoll i) specialist.length) "")
          = v := by
        unfold valueOf
        rw [hv]
        rfl
      have hv1 : 1 ≤ v := lookupVal_pos hpos hv
      rw [hval] at h3 ⊢
      have hcur' : ((cur + v : Int) : ℚ) ≤ scaledTarget := by
        push_cast
        push_cast at h3
        linarith [not_lt.mp h3]
      have hcurlt : cur < ⌈scaledTarget⌉ := Int.lt_ceil.mpr (by exact_mod_cast h1)
      exact ih (i + 1) (cur + v) _ (by omega)
        (le_trans hcur' (le_max_right 0 scaledTarget)) (by omega)
    · exact ⟨(cur, sel), rfl, hcur0, hcurq⟩

/-- Termination and value bound for the general accumulation loop. -/
theorem generalAccumulate_spec (values : List (String × Int)) (scaledTarget : ℚ)
    (maxResources : Option Nat) (pickRoll : Nat → ℚ)
    (hpos : ∀ p ∈ values, (1 : Int) ≤ p.2)
    (hroll : ∀ i, 0 ≤ pickRoll i ∧ pickRoll i < 1) :
    ∀ (fuel : Nat) (i : Nat) (cur : Int) (sel : List (String × Nat)),
      0 ≤ cur → (cur : ℚ) ≤ max 0 scaledTarget →
      max 0 ⌈scaledTarget⌉ - cur < (fuel : Int) →
      ∃ res, generalAccumulate values scaledTarget maxResources pickRoll fuel i cur sel =
          some res ∧ 0 ≤ res.1 ∧ (res.1 : ℚ) ≤ max 0 scaledTarget := by
  intro fuel
  induction fuel with
  | zero =>
    intro i cur sel hcur0 hcurq hfuel
    exfalso
    have hle : (cur : ℚ) ≤ ((max 0 ⌈scaledTarget⌉ : Int) : ℚ) := by
      calc (cur : ℚ) ≤ max 0 scaledTarget := hcurq
        _ ≤ ((max 0 ⌈scaledTarget⌉ : Int) : ℚ) := by
            push_cast
            exact max_le_max (le_refl 0) (Int.le_ceil scaledTarget)
    have : cur ≤ max 0 ⌈scaledTarget⌉ := by exact_mod_cast hle
    omega
  | succ fuel ih =>
    intro i cur sel hcur0 hcurq hfuel
    simp only [generalAccumulate]
    split_ifs with h1 h2
    · exact ⟨(cur, sel), rfl, hcur0, hcurq⟩
    · -- recursive step
      set entries := values.filter
        (fun p => decide (((p.2 + cur : Int) : ℚ) ≤ scaledTarget ∧
          (underMax sel.length maxResources = true ∨
            (sel.find? (·.1 = p.1)).isSome = true))) with hentries
      have hne : entries ≠ [] := by
        intro hnil
        apply h2
        rw [hnil]
        rfl
      have hlen : 0 < entries.length := List.length_pos.mpr hne
      have hidx : randIndex (pickRoll i) entries.length < entries.length :=
        randIndex_lt (hroll i).1 (hroll i).2 hlen
      have hmem : entries.getD (randIndex (pickRoll i) entries.length) ("", 0) ∈ entries :=
        getD_mem hidx ("", 0)
      have hmem' := List.mem_filter.mp (hentries ▸ hmem)
      have hp1 : 1 ≤ (entries.getD (randIndex (pickRoll i) entries.length) ("", 0)).2 :=
        hpos _ hmem'.1
      have hcond := of_decide_eq_true hmem'.2
      rw [← hentries] at hcond
      have hcurlt : cur < ⌈scaledTarget⌉ := Int.lt_ceil.mpr (by exact_mod_cast h1)
      obtain ⟨res, hres, hres0, hresq⟩ := ih (i + 1)
        (cur + (entries.getD (randIndex (pickRoll i) entries.length) ("", 0)).2)
        (bumpSel sel (entries.getD (randIndex (pickRoll i) entries.length) ("", 0)).1)
        (by omega)
        (by
          have hc1 := hcond.1
          push_cast at hc1 ⊢
          linarith [le_max_right (0 : ℚ) scaledTarget])
        (by omega)
      exact ⟨res, hres, hres0, hresq⟩
    · exact ⟨(cur, sel), rfl, hcur0, hcurq⟩

/-- A zero-valued resource defeats termination: the general loop never
finishes, at any fuel, when the only resource is worth 0 and the target is
positive (the loop keeps adding 0-value units). -/
theorem generalAccumulate_zero_diverges :
    ∀ (fuel : Nat) (i : Nat) (sel : List (String × Nat)),
      generalAccumulate [("iron", 0)] 1 none (fun _ => 0) fuel i 0 sel = none := by
  intro fuel
  induction fuel with
  | zero => intro i sel; rfl
  | succ fuel ih =>
    intro i sel
    simp only [generalAccumulate]
    rw [if_pos (by norm_num)]
    rw [show ([("iron", (0 : Int))].filter
        (fun p => decide ((((p.2 + 0 : Int)) : ℚ) ≤ 1 ∧
          (underMax sel.length none = true ∨
            (sel.find? (·.1 = p.1)).isSome = true)))) = [("iron", 0)] from by
      simp [underMax]]
    rw [if_neg (by simp)]
    rw [show randIndex 0 ([("iron", (0 : Int))].length) = 0 from by norm_num [randIndex]]
    simpa using ih (i + 1) (bumpSel sel "iron")

/-- C10 counterexample: with strictly positive values (iron worth 5) but a
negative target, generation terminates with accumulated value 0, which
*exceeds* `targetValue × difficultyMultiplier = -1`: the claimed bound fails
for negative scaled targets. -/
theorem accumulate_bound_cex :
    ∃ c, generateRandomContract [("iron", 5)] [] 1 1 1.4 none oracleZero 5 (-1) 7 = some c ∧
      (∀ p ∈ [(("iron" : String), (5 : Int))], (1 : Int) ≤ p.2) ∧
      ¬ ((c.value : ℚ) ≤ (-1) * 1) := by
  have hacc : generalAccumulate [("iron", 5)] ((-1 : ℚ) * 1) none oracleZero.pickRoll 5 0 0 [] =
      some (0, []) := by
    rw [show (5 : Nat) = 4 + 1 from rfl, generalAccumulate]
    norm_num
  refine ⟨buildContract [] 1 1 1.4 none oracleZero.labelRoll oracleZero.rewardRoll 7 (0, []),
    ?_, by norm_num,
    by
      rw [show (buildContract [] 1 1 1.4 none oracleZero.labelRoll oracleZero.rewardRoll 7
        (0, [])).value = 0 from rfl]
      norm_num⟩
  unfold generateRandomContract
  dsimp only
  rw [if_neg (show ¬ oracleZero.specialistRoll < (0.5 : ℚ) from by norm_num [oracleZero])]
  rw [hacc]
  rfl

/-- C10 (amended): under the precondition that every resource value is
strictly positive (with a nonempty value map, `maxResources ≥ 1`, and
in-range rolls), both accumulation modes terminate for every target value
within `max 0 ⌈targetValue × difficultyMultiplier⌉ + 1` iterations, and the
accumulated contract value never exceeds
`max(0, targetValue × difficultyMultiplier)`; the claimed bound
`targetValue × difficultyMultiplier` itself holds whenever the scaled target
is nonnegative.  The positivity precondition is essential: a zero-valued
resource makes the general loop run forever. -/
theorem generateRandomContract_terminates (values : List (String × Int))
    (contracts : List Contract) (cd a b : ℚ) (mr : Option Nat) (o : Oracle) (tv : ℚ)
    (id : Int) (hpos : ∀ p ∈ values, (1 : Int) ≤ p.2) (hv : o.Valid)
    (hne : values ≠ []) (hmr : mr = none ∨ ∃ m, mr = some m ∧ 1 ≤ m) :
    (∃ c, generateRandomContract values contracts cd a b mr o
        ((max 0 ⌈tv * cd⌉).toNat + 1) tv id = some c ∧
      (c.value : ℚ) ≤ max 0 (tv * cd) ∧
      ((0 : ℚ) ≤ tv * cd → (c.value : ℚ) ≤ tv * cd)) ∧
    (∀ fuel i sel, generalAccumulate [("iron", 0)] 1 none (fun _ => 0) fuel i 0 sel = none) := by
  refine ⟨?_, fun fuel i sel => generalAccumulate_zero_diverges fuel i sel⟩
  have hfuel : max 0 ⌈tv * cd⌉ - 0 < (((max 0 ⌈tv * cd⌉).toNat + 1 : Nat) : Int) := by
    have h0 : (0 : Int) ≤ max 0 ⌈tv * cd⌉ := le_max_left 0 _
    omega
  unfold generateRandomContract
  dsimp only
  by_cases hsp : o.specialistRoll < (0.5 : ℚ)
  · -- specialist mode
    rw [if_pos hsp]
    have hspec : ∀ n ∈ (o.shuffle (values.map (·.1))).take
        (match mr with
         | none => if o.countRoll < 0.5 then 1 else 2
         | some m => min (if o.countRoll < 0.5 then 1 else 2) m),
        (lookupVal values n).isSome := by
      intro n hn
      have hn' : n ∈ o.shuffle (values.map (·.1)) := List.mem_of_mem_take hn
      have hnk : n ∈ values.map (·.1) := (hv.2.2.2.2.2 (values.map (·.1))).mem_iff.mp hn'
      exact lookupVal_isSome_of_mem_keys hnk
    obtain ⟨res, hres, hres0, hresq⟩ := specialistAccumulate_spec values (tv * cd) _
      o.pickRoll hpos hspec hv.2.2.1 ((max 0 ⌈tv * cd⌉).toNat + 1) 0 0 []
      (le_refl 0) (by simp) hfuel
    rw [hres]
    refine ⟨_, rfl, hresq, fun ht => ?_⟩
    rw [max_eq_right ht] at hresq
    exact hresq
  · -- general mode
    rw [if_neg hsp]
    obtain ⟨res, hres, hres0, hresq⟩ := generalAccumulate_spec values (tv * cd) mr
      o.pickRoll hpos hv.2.2.1 ((max 0 ⌈tv * cd⌉).toNat + 1) 0 0 []
      (le_refl 0) (by simp) hfuel
    rw [hres]
    refine ⟨_, rfl, hresq, fun ht => ?_⟩
    rw [max_eq_right ht] at hresq
    exact hresq

/-- C10 witness: `generateRandomContract_terminates` on a concrete run. -/
theorem generateRandomContract_terminates_witness :
    (∃ c, generateRandomContract [("iron", 5)] [] 1 1 1.4 none oracleZero
        ((max 0 ⌈(10 : ℚ) * 1⌉).toNat + 1) 10 7 = some c ∧
      (c.value : ℚ) ≤ max 0 ((10 : ℚ) * 1) ∧
      ((0 : ℚ) ≤ (10 : ℚ) * 1 → (c.value : ℚ) ≤ (10 : ℚ) * 1)) ∧
    (∀ fuel i sel, generalAccumulate [("iron", 0)] 1 none (fun _ => 0) fuel i 0 sel = none) :=
  generateRandomContract_terminates [("iron", 5)] [] 1 1 1.4 none oracleZero 10 7
    (by decide) oracleZero_valid (by decide) (Or.inl rfl)

end Cutthroat
